import Mathlib

/-!
# Verification of the borg-collective vault core and backup orchestrator

Shallow embedding of the Go sources of the `borg-collective` repository:
the credentials vault (`credentials/internal/store/vault`) and the backup
orchestrator (`internal/drone/worker`, `internal/drone/borg`).

Go byte strings are modelled as `List Nat` (each element a byte value),
Go strings used as map keys or paths as `List Char`, machine words as
`Nat` reduced modulo `2 ^ 32` where the code relies on overflow.
Functions that can panic in Go (nil dereference, out-of-range slice,
`log.Fatal`) return values in the `GoResult` wrapper whose `.panics`
constructor marks abnormal termination.
-/

deriving instance DecidableEq for Except

namespace BorgCollective

/-- Outcome of running a piece of Go code: either a normal value or a
runtime panic / `log.Fatal` (abnormal process termination). -/
inductive GoResult (α : Type) where
  | panics (msg : String)
  | ok (a : α)
deriving Repr, DecidableEq

namespace GoResult

def isOk {α : Type} : GoResult α → Bool
  | .panics _ => false
  | .ok _ => true

def isPanic {α : Type} : GoResult α → Bool
  | .panics _ => true
  | .ok _ => false

end GoResult

/-! ## SHA-256 (models Go `crypto/sha256`)

The vault uses SHA-256 for the passphrase-derived key, the metadata HMAC
secret, the item value checksum (`sum` in `utils.go`) and the recovery
hash. This is the standard FIPS 180-4 algorithm over byte lists, with
32-bit words represented as `Nat` reduced modulo `2 ^ 32`. -/

namespace Sha256

def mod32 (n : Nat) : Nat := n % 4294967296

def rotr (n x : Nat) : Nat := mod32 ((x >>> n) ||| (x <<< (32 - n)))

def shr (n x : Nat) : Nat := x >>> n

def bsig0 (x : Nat) : Nat := (rotr 2 x) ^^^ (rotr 13 x) ^^^ (rotr 22 x)

def bsig1 (x : Nat) : Nat := (rotr 6 x) ^^^ (rotr 11 x) ^^^ (rotr 25 x)

def ssig0 (x : Nat) : Nat := (rotr 7 x) ^^^ (rotr 18 x) ^^^ (shr 3 x)

def ssig1 (x : Nat) : Nat := (rotr 17 x) ^^^ (rotr 19 x) ^^^ (shr 10 x)

def chF (x y z : Nat) : Nat := (x &&& y) ^^^ ((x ^^^ 4294967295) &&& z)

def majF (x y z : Nat) : Nat := (x &&& y) ^^^ (x &&& z) ^^^ (y &&& z)

def kConst : List Nat :=
  1116352408 :: 1899447441 :: 3049323471 :: 3921009573 ::
  961987163 :: 1508970993 :: 2453635748 :: 2870763221 ::
  3624381080 :: 310598401 :: 607225278 :: 1426881987 ::
  1925078388 :: 2162078206 :: 2614888103 :: 3248222580 ::
  3835390401 :: 4022224774 :: 264347078 :: 604807628 ::
  770255983 :: 1249150122 :: 1555081692 :: 1996064986 ::
  2554220882 :: 2821834349 :: 2952996808 :: 3210313671 ::
  3336571891 :: 3584528711 :: 113926993 :: 338241895 ::
  666307205 :: 773529912 :: 1294757372 :: 1396182291 ::
  1695183700 :: 1986661051 :: 2177026350 :: 2456956037 ::
  2730485921 :: 2820302411 :: 3259730800 :: 3345764771 ::
  3516065817 :: 3600352804 :: 4094571909 :: 275423344 ::
  430227734 :: 506948616 :: 659060556 :: 883997877 ::
  958139571 :: 1322822218 :: 1537002063 :: 1747873779 ::
  1955562222 :: 2024104815 :: 2227730452 :: 2361852424 ::
  2428436474 :: 2756734187 :: 3204031479 :: 3329325298 :: []

structure Hash8 where
  h0 : Nat
  h1 : Nat
  h2 : Nat
  h3 : Nat
  h4 : Nat
  h5 : Nat
  h6 : Nat
  h7 : Nat
deriving Repr, DecidableEq

def initH : Hash8 :=
  ⟨1779033703, 3144134277, 1013904242, 2773480762,
   1359893119, 2600822924, 528734635, 1541459225⟩

/-- Big-endian bytes (8 of them) of a 64-bit length value. -/
def len64be (n : Nat) : List Nat :=
  [n >>> 56 % 256, n >>> 48 % 256, n >>> 40 % 256, n >>> 32 % 256,
   n >>> 24 % 256, n >>> 16 % 256, n >>> 8 % 256, n % 256]

/-- SHA-256 padding: append 0x80, zero bytes up to 56 mod 64, then the
bit length as a 64-bit big-endian value. -/
def padMsg (m : List Nat) : List Nat :=
  let l := m.length
  let zeros := (56 + 64 - ((l + 1) % 64)) % 64
  m ++ [0x80] ++ List.replicate zeros 0 ++ len64be (8 * l)

def word32be (a b c d : Nat) : Nat :=
  (a % 256) * 16777216 + (b % 256) * 65536 + (c % 256) * 256 + (d % 256)

/-- Split a (padded) byte list into 32-bit big-endian words. -/
def toWords : List Nat → List Nat
  | a :: b :: c :: d :: rest => word32be a b c d :: toWords rest
  | _ => []

/-- Split a word list into blocks of 16 words (structural recursion so
that the kernel can evaluate it; input length is a multiple of 16). -/
def toBlocks : List Nat → List (List Nat)
  | w0 :: w1 :: w2 :: w3 :: w4 :: w5 :: w6 :: w7 ::
    w8 :: w9 :: w10 :: w11 :: w12 :: w13 :: w14 :: w15 :: rest =>
    [w0, w1, w2, w3, w4, w5, w6, w7, w8, w9, w10, w11, w12, w13, w14, w15] :: toBlocks rest
  | _ => []

/-- Extend the 16 message words to 64 schedule words; `n` counts the
remaining words to produce (48 for a full block). -/
def extendW : Nat → List Nat → List Nat
  | 0, w => w
  | n + 1, w =>
    let i := w.length
    let nw := mod32 (ssig1 (w.getD (i - 2) 0) + w.getD (i - 7) 0 +
                     ssig0 (w.getD (i - 15) 0) + w.getD (i - 16) 0)
    extendW n (w ++ [nw])

structure Regs where
  a : Nat
  b : Nat
  c : Nat
  d : Nat
  e : Nat
  f : Nat
  g : Nat
  h : Nat

def roundStep (st : Regs) (kw : Nat × Nat) : Regs :=
  let t1 := mod32 (st.h + bsig1 st.e + chF st.e st.f st.g + kw.1 + kw.2)
  let t2 := mod32 (bsig0 st.a + majF st.a st.b st.c)
  ⟨mod32 (t1 + t2), st.a, st.b, st.c, mod32 (st.d + t1), st.e, st.f, st.g⟩

def compressBlock (hv : Hash8) (block : List Nat) : Hash8 :=
  let w := extendW 48 block
  let init : Regs := ⟨hv.h0, hv.h1, hv.h2, hv.h3, hv.h4, hv.h5, hv.h6, hv.h7⟩
  let fin := (kConst.zip w).foldl roundStep init
  ⟨mod32 (hv.h0 + fin.a), mod32 (hv.h1 + fin.b), mod32 (hv.h2 + fin.c), mod32 (hv.h3 + fin.d),
   mod32 (hv.h4 + fin.e), mod32 (hv.h5 + fin.f), mod32 (hv.h6 + fin.g), mod32 (hv.h7 + fin.h)⟩

def wordBytesBE (w : Nat) : List Nat :=
  [w >>> 24 % 256, w >>> 16 % 256, w >>> 8 % 256, w % 256]

/-- SHA-256 digest (32 bytes) of a byte list. -/
def sha256 (m : List Nat) : List Nat :=
  let final := (toBlocks (toWords (padMsg m))).foldl compressBlock initH
  wordBytesBE final.h0 ++ wordBytesBE final.h1 ++ wordBytesBE final.h2 ++ wordBytesBE final.h3 ++
  wordBytesBE final.h4 ++ wordBytesBE final.h5 ++ wordBytesBE final.h6 ++ wordBytesBE final.h7

/-- HMAC-SHA256 (models Go `crypto/hmac` with `sha256.New`). -/
def hmacSha256 (key msg : List Nat) : List Nat :=
  let k0 := if 64 < key.length then sha256 key else key
  let kpad := k0 ++ List.replicate (64 - k0.length) 0
  let ipad := kpad.map (fun b => b ^^^ 0x36)
  let opad := kpad.map (fun b => b ^^^ 0x5c)
  sha256 (opad ++ sha256 (ipad ++ msg))

def hexDigit (n : Nat) : Char :=
  if n < 10 then Char.ofNat (48 + n) else Char.ofNat (87 + n)

/-- Lowercase hex encoding of a byte list (models Go `hex.EncodeToString`). -/
def hexChars (bs : List Nat) : List Char :=
  bs.flatMap (fun b => [hexDigit (b % 256 / 16), hexDigit (b % 16)])

/-- Byte list of a Lean string (ASCII contents assumed; models Go
`[]byte(s)` for the ASCII strings appearing in the vault). -/
def strBytes (s : String) : List Nat :=
  s.data.map Char.toNat

end Sha256

export Sha256 (sha256 hmacSha256 hexChars strBytes)

set_option maxRecDepth 4096

/-- `sum` in `vault/utils.go`: lowercase hex SHA-256 of `data`. -/
def sum (data : List Nat) : String :=
  ⟨hexChars (sha256 data)⟩

/-- SHA-256 of the empty input (standard test vector). -/
theorem sha256_empty_vector :
    sum [] = "e3b0c44298fc1c149afbf4c8996fb92427ae41e4649b934ca495991b7852b855" := by
  decide

/-- SHA-256 of "abc" (standard test vector). -/
theorem sha256_abc_vector :
    sum (strBytes "abc") = "ba7816bf8f01cfea414140de5dae2223b00361a396177a9cb410ff61f20015ad" := by
  decide

/-- HMAC-SHA256 test vector (RFC 4231, test case 2: key "Jefe",
data "what do ya want for nothing?"). -/
theorem hmac_sha256_rfc4231_vector :
    (⟨hexChars (hmacSha256 (strBytes "Jefe") (strBytes "what do ya want for nothing?"))⟩ : String) =
      "5bdcc146bf60754e6a042426089575c75a003f089d2739839dec58b964ec3843" := by
  decide

/-! ## Storage backend

Modelled from the spec: the vault's storage backend contract
(`init`, `read_file`, `write_file`, `delete_file`, `list_files`); the
interface type itself is not among the provided sources, only its spec
(§4.1) and its call sites. The reference backend is a directory of
files, modelled as an association list from path to content. Reads and
writes of this in-memory reference backend are total, so the Go error
branches of backend calls are unreachable in the model. -/

abbrev Store := List (List Char × List Nat)

def lookupFile : Store → List Char → Option (List Nat)
  | [], _ => none
  | (k, v) :: rest, p => if k = p then some v else lookupFile rest p

def writeFileS : Store → List Char → List Nat → Store
  | [], p, v => [(p, v)]
  | (k, w) :: rest, p, v =>
    if k = p then (k, v) :: rest else (k, w) :: writeFileS rest p v

def deleteFileS : Store → List Char → Bool × Store
  | [], _ => (false, [])
  | (k, w) :: rest, p =>
    if k = p then (true, rest)
    else
      let (b, rest') := deleteFileS rest p
      (b, (k, w) :: rest')

def listFilesS (st : Store) : List (List Char) :=
  st.map Prod.fst

theorem lookupFile_writeFileS_same (st : Store) (p : List Char) (v : List Nat) :
    lookupFile (writeFileS st p v) p = some v := by
  induction st with
  | nil => simp [writeFileS, lookupFile]
  | cons kv rest ih =>
    by_cases h : kv.1 = p <;> simp [writeFileS, lookupFile, h, ih]

theorem lookupFile_writeFileS_other (st : Store) (p q : List Char) (v : List Nat)
    (h : q ≠ p) : lookupFile (writeFileS st p v) q = lookupFile st q := by
  induction st with
  | nil =>
    have : ¬ p = q := fun h' => h h'.symm
    simp [writeFileS, lookupFile, this]
  | cons kv rest ih =>
    obtain ⟨k, w⟩ := kv
    by_cases hk : k = p
    · subst hk
      have : ¬ k = q := fun h' => h h'.symm
      simp [writeFileS, lookupFile, this]
    · simp only [writeFileS, if_neg hk, lookupFile]
      by_cases hq : k = q <;> simp [hq, ih]

/-! ## Vault items (`vault/part_011`, `vault/utils.go`) -/

/-- `Item` in the vault: id, description, optional pinned peer, hex
SHA-256 checksum of the plaintext value ("" when no value was set yet),
last-modified timestamp (unix millis; Go `time.Time` restricted to what
the vault compares). -/
structure Item where
  id : String
  description : String
  peer : Option String
  checksum : String
  modifiedAt : Nat
deriving Repr, DecidableEq

/-- `metadataPath` in `utils.go`: `<id>.json` (depends only on the id). -/
def metadataPath (id : String) : List Char :=
  id.data ++ ".json".data

/-- `valuePath` in `utils.go`: `<id>.age`. -/
def valuePath (id : String) : List Char :=
  id.data ++ ".age".data

/-- `backupPath` in `utils.go`: `.bak/<id>.<millis>.json`. -/
def backupPath (id : String) (millis : Nat) : List Char :=
  ".bak/".data ++ (id.data ++ (".".data ++ ((toString millis).data ++ ".json".data)))

theorem metadataPath_inj {a b : String} (h : metadataPath a = metadataPath b) : a = b := by
  have h2 : a.data = b.data := List.append_cancel_right h
  cases a; cases b; exact congrArg String.mk (by simpa using h2)

/-- Serialization of item metadata. In Go this is `json.Marshal`
(standard library); it is modelled as a deterministic, parseable
length-prefixed record encoding with the same information content. -/
def encStr (s : List Char) : List Nat :=
  s.length :: s.map Char.toNat

def encodeItem (it : Item) : List Nat :=
  encStr it.id.data ++ encStr it.description.data ++
    (match it.peer with
     | none => [0]
     | some p => 1 :: encStr p.data) ++
    encStr it.checksum.data ++ [it.modifiedAt]

/-- Inverse parser of `encStr` (models `json.Unmarshal`, see `encodeItem`). -/
def decStr : List Nat → Option (List Char × List Nat)
  | [] => none
  | n :: rest =>
    if n ≤ rest.length then some ((rest.take n).map Char.ofNat, rest.drop n) else none

def decodePeer : List Nat → Option (Option String × List Nat)
  | 0 :: r => some (none, r)
  | 1 :: r =>
    match decStr r with
    | some (pc, r') => some (some (⟨pc⟩ : String), r')
    | none => none
  | _ => none

def decodeItem (bs : List Nat) : Option Item := do
  let (idc, r1) ← decStr bs
  let (descc, r2) ← decStr r1
  let (peer, r3) ← decodePeer r2
  let (sumc, r4) ← decStr r3
  match r4 with
  | [m] => pure ⟨⟨idc⟩, ⟨descc⟩, peer, ⟨sumc⟩, m⟩
  | _ => none

theorem map_ofNat_toNat (s : List Char) : (s.map Char.toNat).map Char.ofNat = s := by
  induction s with
  | nil => rfl
  | cons c cs ih => simp [ih, Char.ofNat_toNat]

theorem decStr_encStr (s : List Char) (r : List Nat) :
    decStr (encStr s ++ r) = some (s, r) := by
  simp only [encStr, List.cons_append, decStr]
  have hl : s.length ≤ (s.map Char.toNat ++ r).length := by
    simp [List.length_append]
  rw [if_pos hl]
  have ht : (s.map Char.toNat ++ r).take s.length = s.map Char.toNat :=
    List.take_left' (by simp)
  have hd : (s.map Char.toNat ++ r).drop s.length = r :=
    List.drop_left' (by simp)
  rw [ht, hd, map_ofNat_toNat]

theorem decodeItem_encodeItem (it : Item) : decodeItem (encodeItem it) = some it := by
  obtain ⟨id, desc, peer, chk, m⟩ := it
  cases peer with
  | none =>
    simp only [encodeItem, decodeItem, List.append_assoc]
    rw [decStr_encStr]
    simp only [Option.bind_eq_bind, Option.some_bind, List.cons_append]
    rw [decStr_encStr]
    simp only [Option.some_bind, decodePeer, List.nil_append]
    rw [decStr_encStr]
    rfl
  | some p =>
    simp only [encodeItem, decodeItem, List.append_assoc, List.cons_append]
    rw [decStr_encStr]
    simp only [Option.bind_eq_bind, Option.some_bind]
    rw [decStr_encStr]
    simp only [Option.some_bind, decodePeer, List.append_assoc]
    rw [decStr_encStr]
    simp only [Option.some_bind]
    rw [decStr_encStr]
    rfl

/-! ## Vault crypto context

The vault delegates asymmetric encryption to the external `filippo.io/age`
library and symmetric sealing of the identity to Go's `crypto/aes` +
`cipher.GCM`. These library functions are modelled as abstract parameters;
theorems that need their algebra (e.g. decrypt-after-encrypt) take it as a
hypothesis. -/

/-- An X25519 identity; only its textual form matters to the vault
(it is hashed for the metadata HMAC secret). -/
structure Identity where
  text : List Nat
deriving Repr, DecidableEq

/-- An X25519 recipient; only its textual form matters to the vault. -/
structure Recipient where
  text : List Nat
deriving Repr, DecidableEq

/-- Abstract interface of the external crypto libraries used by the vault. -/
structure Crypto where
  /-- AES-256-GCM open of the sealed `.identity` file under the derived key,
  followed by `age.ParseX25519Identity` (both external). -/
  openIdentity : List Nat → List Nat → Option Identity
  /-- AES-256-GCM seal of a fresh identity under the derived key
  (nonce prepended), as in `writeIdentity`. -/
  sealIdentity : List Nat → Identity → List Nat
  /-- `age.GenerateX25519Identity` (random); `none` models a generation failure. -/
  genIdentity : Option Identity
  /-- `age.ParseX25519Recipient`. -/
  parseRecipient : List Nat → Option Recipient
  /-- `identity.Recipient()`. -/
  recipientOf : Identity → Recipient
  /-- `age.Encrypt` to a recipient set. -/
  encValue : List Recipient → List Nat → List Nat
  /-- `age.Decrypt` with the primary identity. -/
  decValue : Identity → List Nat → Option (List Nat)
  /-- `semver.NewVersion` on the `.version` file content, reduced to the
  only question `upgrade` asks: is the version ≤ 0.2.0? -/
  parseVersionLe : List Nat → Option Bool

/-- `deriveMetadataHmacSecret` in `utils.go`: SHA-256 of the identity's
textual form. -/
def deriveMetadataHmacSecret (identity : Identity) : List Nat :=
  sha256 identity.text

/-- `createRecoveryHash` in `utils.go`: `sum` (hex SHA-256) of the
recipient's textual form with the metadata secret appended. Note that
this is a plain SHA-256 of the concatenation, not an HMAC. -/
def createRecoveryHash (recipient : Recipient) (secret : List Nat) : String :=
  sum (recipient.text ++ secret)

/-- `loadRecoveryRecipient` in `utils.go`. -/
def loadRecoveryRecipient (cr : Crypto) (st : Store) (secret : List Nat) :
    Except String (Option Recipient) :=
  match lookupFile st ".recovery".data with
  | none => .ok none
  | some recBytes =>
    match lookupFile st ".recovery.sum".data with
    | none => .error ".recovery.sum is missing"
    | some recSumBytes =>
      match cr.parseRecipient recBytes with
      | none => .error "failed to parse recovery recipient"
      | some recipient =>
        if recSumBytes ≠ strBytes (createRecoveryHash recipient secret) then
          .error ".recovery.sum does not match"
        else
          .ok (some recipient)

/-- `writeRecoveryRecipient` in `utils.go`. The reference backend's writes
are total, so the delete-on-failed-sum-write branch is unreachable here. -/
def writeRecoveryRecipient (st : Store) (recipient : Recipient) (secret : List Nat) : Store :=
  let st1 := writeFileS st ".recovery".data recipient.text
  writeFileS st1 ".recovery.sum".data (strBytes (createRecoveryHash recipient secret))

/-- `readIdentity` in `utils.go`: read `.identity` (panics when absent),
`aes.NewCipher` (panics on a bad key size), slice off the 12-byte nonce
(Go panics when the file is shorter), GCM-open and parse. -/
def readIdentity (cr : Crypto) (st : Store) (identityKey : List Nat) :
    GoResult (Except String Identity) :=
  match lookupFile st ".identity".data with
  | none => .panics "identity file not found"
  | some cryptBytes =>
    if identityKey.length ≠ 16 ∧ identityKey.length ≠ 24 ∧ identityKey.length ≠ 32 then
      .panics "crypto/aes: invalid key size"
    else if cryptBytes.length < 12 then
      .panics "slice bounds out of range"
    else
      match cr.openIdentity identityKey cryptBytes with
      | none => .ok (.error "cipher: message authentication failed")
      | some identity => .ok (.ok identity)

/-- `writeIdentity` in `utils.go` (the seal itself is `Crypto.sealIdentity`). -/
def writeIdentity (cr : Crypto) (st : Store) (identityKey : List Nat) (identity : Identity) :
    Store :=
  writeFileS st ".identity".data (cr.sealIdentity identityKey identity)

/-- `writeItemMetadataUnsafe` in `utils.go`: serialized metadata followed
by its 32-byte HMAC-SHA256 under the metadata secret. -/
def encodeItemHmac (item : Item) (hmacSecret : List Nat) : List Nat :=
  encodeItem item ++ hmacSha256 hmacSecret (encodeItem item)

def writeItemMetadataUnsafe (st : Store) (item : Item) (hmacSecret : List Nat) : Store :=
  writeFileS st (metadataPath item.id) (encodeItemHmac item hmacSecret)

/-- `readItemMetadataUnsafe` in `utils.go`. Go slices
`metadataBytes[:len-32]` and `[len-32:]`; with fewer than 32 bytes the
bound is negative and the slice expression panics. -/
def readItemMetadataUnsafe (st : Store) (path : List Char) (hmacSecret : List Nat) :
    GoResult (Except String Item) :=
  match lookupFile st path with
  | none => .ok (.error "metadata file not found")
  | some metadataBytes =>
    if metadataBytes.length < 32 then
      .panics "slice bounds out of range"
    else
      let body := metadataBytes.take (metadataBytes.length - 32)
      let tag := metadataBytes.drop (metadataBytes.length - 32)
      if hmacSha256 hmacSecret body ≠ tag then
        .ok (.error "invalid metadata: checksum mismatch")
      else
        match decodeItem body with
        | none => .ok (.error "failed to unmarshal metadata")
        | some metadata =>
          if path ≠ metadataPath metadata.id then
            .ok (.error "metadata path doesn't match item id")
          else
            .ok (.ok metadata)

/-- `filepath.Ext`: the suffix beginning at the final dot, or "" if none. -/
def extOf (p : List Char) : List Char :=
  if p.contains '.' then '.' :: (p.reverse.takeWhile (· ≠ '.')).reverse else []

/-- Association-list operations modelling the Go `map[uuid.UUID]Item`
(iteration order of a Go map is unspecified; the model iterates in list
order). -/
def alGet {β : Type} : List (String × β) → String → Option β
  | [], _ => none
  | (k, v) :: rest, key => if k = key then some v else alGet rest key

def alSet {β : Type} : List (String × β) → String → β → List (String × β)
  | [], key, v => [(key, v)]
  | (k, w) :: rest, key, v =>
    if k = key then (k, v) :: rest else (k, w) :: alSet rest key v

def alDel {β : Type} : List (String × β) → String → List (String × β)
  | [], _ => []
  | (k, w) :: rest, key => if k = key then rest else (k, w) :: alDel rest key

abbrev ItemMap := List (String × Item)

/-- `readAllMetadataUnsafe` in `utils.go`: list all backend files, read
every `.json` entry, skip entries that fail with an error (warn + continue),
propagate panics. The reference backend's `ListFiles` is total, so the
directory-error branch is unreachable. -/
def readAllMetadataFrom (st : Store) (hmacSecret : List Nat) :
    List (List Char) → ItemMap → GoResult ItemMap
  | [], acc => .ok acc
  | entry :: rest, acc =>
    if extOf entry = ".json".data then
      match readItemMetadataUnsafe st entry hmacSecret with
      | .panics msg => .panics msg
      | .ok (.error _) => readAllMetadataFrom st hmacSecret rest acc
      | .ok (.ok metadata) => readAllMetadataFrom st hmacSecret rest (alSet acc metadata.id metadata)
    else
      readAllMetadataFrom st hmacSecret rest acc

def readAllMetadataUnsafe (st : Store) (hmacSecret : List Nat) : GoResult ItemMap :=
  readAllMetadataFrom st hmacSecret (listFilesS st) []

/-- `copyFile` in `utils.go`. -/
def copyFile (st : Store) (src dest : List Char) : Except String Store :=
  match lookupFile st src with
  | none => .error "file does not exist"
  | some bytes => .ok (writeFileS st dest bytes)

/-! ## Vault state and operations (`part_011`)

State fields mirror the `Vault` struct; nondeterministic inputs
(`uuid.New`, `time.Now`) are explicit arguments. Operations return
`GoResult` of (result, next state). The reference backend is total, so
its Go error branches are unreachable; enclave opens always succeed when
the enclave is set, and the corresponding Go reset branches are kept in
the model for the `none` case. -/

structure VaultState where
  /-- `Options.Secure`. -/
  secure : Bool
  identityKey : Option (List Nat)
  metadataHmacSecret : Option (List Nat)
  primaryRecipient : Option Recipient
  items : Option ItemMap
  store : Store
deriving Repr, DecidableEq

/-- `IsLocked`: the vault is locked iff no identity key is held. -/
def IsLocked (st : VaultState) : Bool :=
  st.identityKey.isNone

def sentinelBytes : List Nat := strBytes "sentinel"

/-- The passphrase-derived key: SHA-256 of the passphrase, with the
`"sentinel"` domain separator appended in secure mode. -/
def deriveKey (secure : Bool) (pass : List Nat) : List Nat :=
  sha256 (pass ++ if secure then sentinelBytes else [])

/-- `upgrade` in `config.go` (vault part): read `.version`; when absent or
≤ 0.2.0, require `.recovery.sum` to be absent and backfill it from
`.recovery` if that exists; finally rewrite `.version` to the current
format version (`store.Version.String()` = "0.0.0+devel"). All error
returns happen before any write. -/
def upgrade (cr : Crypto) (store : Store) (secret : List Nat) : Except String Store :=
  let writeVersion := fun (s : Store) =>
    Except.ok (writeFileS s ".version".data (strBytes "0.0.0+devel"))
  let old : Except String Bool :=
    match lookupFile store ".version".data with
    | none => .ok true
    | some vb =>
      match cr.parseVersionLe vb with
      | none => .error "invalid semantic version"
      | some le => .ok le
  match old with
  | .error e => .error e
  | .ok le =>
    if le then
      match lookupFile store ".recovery.sum".data with
      | some _ => .error ".recovery.sum exists"
      | none =>
        match lookupFile store ".recovery".data with
        | some recBytes =>
          match cr.parseRecipient recBytes with
          | none => .error "failed to parse recovery recipient"
          | some recipient =>
            writeVersion
              (writeFileS store ".recovery.sum".data
                (strBytes (createRecoveryHash recipient secret)))
        | none => writeVersion store
    else
      writeVersion store

/-- Tail of `Unlock` after the identity is established: open the metadata
secret (reset everything on failure), run `upgrade` (note: the Go code
returns the upgrade error WITHOUT resetting `identityKey`,
`metadataHmacSecret` or `primaryRecipient`), then load all metadata. -/
def unlockTail (cr : Crypto) (st : VaultState) : GoResult (Except String Unit × VaultState) :=
  match st.metadataHmacSecret with
  | none =>
    .ok (.error "failed to verify passphrase",
      { st with identityKey := none, metadataHmacSecret := none, primaryRecipient := none })
  | some secret =>
    match upgrade cr st.store secret with
    | .error _ => .ok (.error "failed to upgrade vault", st)
    | .ok store' =>
      match readAllMetadataUnsafe store' secret with
      | .panics m => .panics m
      | .ok items => .ok (.ok (), { st with store := store', items := some items })

/-- `Unlock` in `part_011`. -/
def Unlock (cr : Crypto) (st : VaultState) (pass : List Nat) :
    GoResult (Except String Unit × VaultState) :=
  if ¬ IsLocked st then .ok (.ok (), st)
  else
    let rawSum := deriveKey st.secure pass
    let st1 := { st with identityKey := some rawSum }
    match lookupFile st.store ".identity".data with
    | some _ =>
      match readIdentity cr st.store rawSum with
      | .panics m => .panics m
      | .ok (.error _) =>
        .ok (.error "failed to verify passphrase", { st with identityKey := none })
      | .ok (.ok identity) =>
        unlockTail cr
          { st1 with
            metadataHmacSecret := some (deriveMetadataHmacSecret identity),
            primaryRecipient := some (cr.recipientOf identity) }
    | none =>
      match cr.genIdentity with
      | none => .ok (.error "failed to verify passphrase", { st with identityKey := none })
      | some identity =>
        unlockTail cr
          { st1 with
            store := writeIdentity cr st1.store rawSum identity,
            metadataHmacSecret := some (deriveMetadataHmacSecret identity),
            primaryRecipient := some (cr.recipientOf identity) }

/-- `VerifyPassphrase` in `part_011`: derive the candidate key the same way
and compare it with the held identity key; read-only. -/
def VerifyPassphrase (st : VaultState) (pass : List Nat) : Except String Unit :=
  if IsLocked st then .error "vault is locked"
  else
    match st.identityKey with
    | none => .error "failed to verify passphrase"
    | some key =>
      if deriveKey st.secure pass = key then .ok () else .error "failed to verify passphrase"

/-- `Lock` in `part_011`. -/
def Lock (st : VaultState) : Except String Unit × VaultState :=
  if IsLocked st then (.error "vault is locked", st)
  else (.ok (),
    { st with identityKey := none, metadataHmacSecret := none,
              primaryRecipient := none, items := none })

/-- The optional recovery recipient appended after the primary one. -/
def recoveryToList : Option Recipient → List Recipient
  | some r => [r]
  | none => []

/-- `encryptForRestUnsafe`: encrypt to the primary recipient plus the
recovery recipient when one is configured; failures are `log.Fatal`. -/
def encryptForRestUnsafe (cr : Crypto) (st : VaultState) (value : List Nat) :
    GoResult (List Nat) :=
  match st.primaryRecipient with
  | none => .panics "age: encrypt to nil recipient"
  | some primary =>
    match st.metadataHmacSecret with
    | none => .panics "failed to access metadata HMAC secret"
    | some secret =>
      match loadRecoveryRecipient cr st.store secret with
      | .error _ => .panics "error loading recovery recipient"
      | .ok recovery =>
        .ok (cr.encValue (primary :: recoveryToList recovery) value)

/-- `decryptFromRestUnsafe`: re-read the identity and decrypt; failures are
`log.Fatal`. -/
def decryptFromRestUnsafe (cr : Crypto) (st : VaultState) (data : List Nat) :
    GoResult (List Nat) :=
  match st.identityKey with
  | none => .panics "nil enclave"
  | some key =>
    match readIdentity cr st.store key with
    | .panics m => .panics m
    | .ok (.error _) => .panics "error reading identity"
    | .ok (.ok identity) =>
      match cr.decValue identity data with
      | none => .panics "error decrypting data"
      | some value => .ok value

/-- `readItemValueUnsafe`: read and decrypt the value file, then require
its hex SHA-256 to equal the metadata checksum. -/
def readItemValueUnsafe (cr : Crypto) (st : VaultState) (item : Item) :
    GoResult (Except String (List Nat)) :=
  match lookupFile st.store (valuePath item.id) with
  | none => .ok (.error "item value file not found")
  | some ageBytes =>
    match decryptFromRestUnsafe cr st ageBytes with
    | .panics m => .panics m
    | .ok value =>
      if sum value ≠ item.checksum then
        .ok (.error "failed to read item value: checksum mismatch")
      else
        .ok (.ok value)

/-- `verifyPeerUnsafe`: pin the peer and persist the metadata when no peer
is set; otherwise require exact equality. -/
def verifyPeerUnsafe (st : VaultState) (item : Item) (peer : String) :
    Except String Unit × VaultState :=
  match st.metadataHmacSecret with
  | none => (.error "failed to verify peer", st)
  | some secret =>
    match item.peer with
    | none =>
      let item' := { item with peer := some peer }
      let store' := writeItemMetadataUnsafe st.store item' secret
      (.ok (), { st with store := store', items := some (alSet (st.items.getD []) item'.id item') })
    | some p =>
      if p ≠ peer then (.error "client credentials mismatch", st)
      else (.ok (), st)

/-- `writeItemValueUnsafe`: encrypt, snapshot the previous value under
`.bak/` when one exists, write the value file, update checksum and
modifiedAt, rewrite the metadata, update the in-memory map. `now` stands
for `time.Now()` (unix millis). -/
def writeItemValueUnsafe (cr : Crypto) (st : VaultState) (item : Item) (value : List Nat)
    (now : Nat) : GoResult (Except String VaultState) :=
  match encryptForRestUnsafe cr st value with
  | .panics m => .panics m
  | .ok ageBytes =>
    let afterBackup : Except String Store :=
      if item.checksum ≠ "" then
        match copyFile st.store (valuePath item.id) (backupPath item.id now) with
        | .error _ => .error "failed to create backup of previous value"
        | .ok s => .ok s
      else
        .ok st.store
    match afterBackup with
    | .error e => .ok (.error e)
    | .ok store1 =>
      let item' := { item with checksum := sum value, modifiedAt := now }
      let store2 := writeFileS store1 (valuePath item'.id) ageBytes
      match st.metadataHmacSecret with
      | none => .ok (.error "failed to write item value")
      | some secret =>
        let store3 := writeItemMetadataUnsafe store2 item' secret
        .ok (.ok { st with store := store3,
                           items := some (alSet (st.items.getD []) item'.id item') })

/-- `CreateItem`: metadata-only item with empty checksum. `newId` stands
for `uuid.New()`, `now` for `time.Now()`. -/
def CreateItem (st : VaultState) (description : String) (newId : String) (now : Nat) :
    Except String Item × VaultState :=
  if IsLocked st then (.error "vault is locked", st)
  else
    let item : Item := ⟨newId, description, none, "", now⟩
    match st.metadataHmacSecret with
    | none => (.error "failed to create item", st)
    | some secret =>
      let store' := writeItemMetadataUnsafe st.store item secret
      (.ok item, { st with store := store', items := some (alSet (st.items.getD []) newId item) })

/-- `deleteItemUnsafe`. -/
def deleteItemUnsafe (st : VaultState) (id : String) : Bool × VaultState :=
  match alGet (st.items.getD []) id with
  | none => (false, st)
  | some item =>
    let items' := alDel (st.items.getD []) id
    let (_, store1) := deleteFileS st.store (metadataPath item.id)
    let (_, store2) := deleteFileS store1 (valuePath item.id)
    (true, { st with items := some items', store := store2 })

/-- `DeleteItem`: idempotent (a missing item only logs a warning). -/
def DeleteItem (st : VaultState) (id : String) : Except String Unit × VaultState :=
  if IsLocked st then (.error "vault is locked", st)
  else
    let (_, st') := deleteItemUnsafe st id
    (.ok (), st')

/-- `GetItem`: read-only; returns `none` when the item has no value yet. -/
def GetItem (cr : Crypto) (st : VaultState) (id : String) :
    GoResult (Except String (Option (List Nat))) :=
  if IsLocked st then .ok (.error "vault is locked")
  else
    match alGet (st.items.getD []) id with
    | none => .ok (.error "item not found")
    | some item =>
      if item.checksum = "" then .ok (.ok none)
      else
        match readItemValueUnsafe cr st item with
        | .panics m => .panics m
        | .ok (.error e) => .ok (.error e)
        | .ok (.ok value) => .ok (.ok (some value))

/-- `GetItemForPeer`: verify/pin the peer (may mutate metadata), then
behave as `GetItem`. Note the Go caller keeps its pre-pinning copy of
`item`; only `Checksum` (unchanged by pinning) is used afterwards. -/
def GetItemForPeer (cr : Crypto) (st : VaultState) (id : String) (peer : String) :
    GoResult (Except String (Option (List Nat)) × VaultState) :=
  if IsLocked st then .ok (.error "vault is locked", st)
  else
    match alGet (st.items.getD []) id with
    | none => .ok (.error "item not found", st)
    | some item =>
      let (r, st') := verifyPeerUnsafe st item peer
      match r with
      | .error e => .ok (.error e, st')
      | .ok () =>
        if item.checksum = "" then .ok (.ok none, st')
        else
          match readItemValueUnsafe cr st' item with
          | .panics m => .panics m
          | .ok (.error e) => .ok (.error e, st')
          | .ok (.ok value) => .ok (.ok (some value), st')

/-- `SetItemValue`. -/
def SetItemValue (cr : Crypto) (st : VaultState) (id : String) (value : List Nat) (now : Nat) :
    GoResult (Except String Unit × VaultState) :=
  if value = [] then .ok (.error "value is empty", st)
  else if IsLocked st then .ok (.error "vault is locked", st)
  else
    match alGet (st.items.getD []) id with
    | none => .ok (.error "item not found", st)
    | some item =>
      match writeItemValueUnsafe cr st item value now with
      | .panics m => .panics m
      | .ok (.error e) => .ok (.error e, st)
      | .ok (.ok st') => .ok (.ok (), st')

/-- The best-effort per-item re-encryption loop of `SetRecoveryRecipient`:
read each value and write it back (re-encrypting to the new recipient
set); failures log and continue. -/
def reencryptItems (cr : Crypto) : VaultState → List (String × Item) → Nat →
    GoResult VaultState
  | st, [], _ => .ok st
  | st, (_, item) :: rest, now =>
    match readItemValueUnsafe cr st item with
    | .panics m => .panics m
    | .ok (.error _) => reencryptItems cr st rest now
    | .ok (.ok value) =>
      match writeItemValueUnsafe cr st item value now with
      | .panics m => .panics m
      | .ok (.error _) => reencryptItems cr st rest now
      | .ok (.ok st') => reencryptItems cr st' rest now

/-- `SetRecoveryRecipient`: load the old recipient, write the new
`.recovery` and `.recovery.sum`, then re-encrypt every item value found on
disk. The reference backend's writes are total, so the
restore-previous-recipient retry loop is unreachable. -/
def SetRecoveryRecipient (cr : Crypto) (st : VaultState) (recipient : Recipient) (now : Nat) :
    GoResult (Except String Unit × VaultState) :=
  if IsLocked st then .ok (.error "vault is locked", st)
  else
    match st.metadataHmacSecret with
    | none => .ok (.error "failed to set recovery recipient", st)
    | some secret =>
      match loadRecoveryRecipient cr st.store secret with
      | .error e => .ok (.error e, st)
      | .ok _ =>
        let store1 := writeRecoveryRecipient st.store recipient secret
        match readAllMetadataUnsafe store1 secret with
        | .panics m => .panics m
        | .ok diskItems =>
          match reencryptItems cr { st with store := store1 } diskItems now with
          | .panics m => .panics m
          | .ok st' => .ok (.ok (), st')

/-! ## Orchestrator: container backup model (`part_004`, model package) -/

/-- `BackupMode` (Go `uint8`, `iota + 1`): default = 1,
dependent-offline = 2, offline = 3. -/
inductive BackupMode where
  | default
  | dependentOffline
  | offline
deriving Repr, DecidableEq

def BackupMode.toNat : BackupMode → Nat
  | .default => 1
  | .dependentOffline => 2
  | .offline => 3

/-- `a.Mode < b.Mode` on the underlying `uint8`. -/
def bmLt (a b : BackupMode) : Bool :=
  a.toNat < b.toNat

/-- `Volume` in the model package. -/
structure Volume where
  vtype : List Char
  name : List Char
  source : List Char
  destination : List Char
deriving Repr, DecidableEq

/-- `ContainerExecBackup`. -/
structure ContainerExecBackup where
  command : List (List Char)
  stdout : Bool
  paths : List (List Char)
deriving Repr, DecidableEq

/-- `ContainerBackup` (`Exec` is a nullable pointer, hence `Option`). -/
structure ContainerBackup where
  id : List Char
  serviceName : String
  mode : BackupMode
  upperDirPath : List Char
  exec : Option ContainerExecBackup
  backupVolumes : List Volume
  allVolumes : List Volume
  dependencies : List String
deriving Repr, DecidableEq

/-- `ContainerBackupProject` (`Containers` is a Go map; modelled as an
association list whose order stands for the unspecified map iteration
order). -/
structure BackupProject where
  engine : String
  projectName : String
  containers : List (String × ContainerBackup)
deriving Repr, DecidableEq

/-- `containerPlan.Less` in `worker/common.go`:
`slices.Contains(a.Dependencies, b.ServiceName) || a.Mode < b.Mode`. -/
def planLess (a b : ContainerBackup) : Bool :=
  a.dependencies.contains b.serviceName || bmLt a.mode b.mode

/-! ### `sort.Sort` (Go standard library)

For slices shorter than 12 elements Go's `sort.Sort` (pdqsort) is plain
insertion sort: element `i` is swapped leftwards while
`Less(j, j-1)`. `goInsertR` inserts into the reversed already-sorted
prefix (head = rightmost element); `goSort` folds it over the input. -/

def goInsertR {α : Type} (less : α → α → Bool) (x : α) : List α → List α
  | [] => [x]
  | y :: ys => if less x y then y :: goInsertR less x ys else x :: y :: ys

def goSortR {α : Type} (less : α → α → Bool) : List α → List α → List α
  | acc, [] => acc
  | acc, x :: xs => goSortR less (goInsertR less x acc) xs

def goSort {α : Type} (less : α → α → Bool) (l : List α) : List α :=
  (goSortR less [] l).reverse

/-! ### In-container path resolution (`part_008`) -/

def toLowerL (s : List Char) : List Char :=
  s.map Char.toLower

/-- Collapse runs of '/' (the part of Go `path.Clean` exercised by
`path.Join` on the inputs at hand; other normalizations elided). The
boolean tracks whether the previous character was a slash. -/
def collapseFrom : Bool → List Char → List Char
  | _, [] => []
  | prevSlash, c :: rest =>
    if c = '/' then
      if prevSlash then collapseFrom true rest
      else '/' :: collapseFrom true rest
    else c :: collapseFrom false rest

/-- Models Go `path.Join` on two elements. -/
def pathJoin (a b : List Char) : List Char :=
  if a = [] then collapseFrom false b
  else if b = [] then a
  else collapseFrom false (a ++ '/' :: b)

/-- The volume loop of `findSourceForInContainerPath`. The Go condition is
`strings.HasPrefix(strings.ToLower(vol.Destination), lowerCPath)` — it
tests that the requested path is a prefix of the destination — and then
slices `cPath[len(vol.Destination):]`, which panics when the destination
is strictly longer than the requested path. -/
def findVolSource (cPath lowerCPath : List Char) :
    List Volume → GoResult (Option (List Char))
  | [] => .ok none
  | vol :: rest =>
    if lowerCPath.isPrefixOf (toLowerL vol.destination) then
      if cPath.length < vol.destination.length then
        .panics "slice bounds out of range"
      else
        .ok (some (pathJoin vol.source (cPath.drop vol.destination.length)))
    else
      findVolSource cPath lowerCPath rest

/-- `findSourceForInContainerPath` in `part_008`. -/
def findSourceForInContainerPath (ctnr : ContainerBackup) (cPath : List Char) :
    GoResult (Option (List Char)) :=
  let lowerCPath := toLowerL cPath
  match findVolSource cPath lowerCPath ctnr.allVolumes with
  | .panics m => .panics m
  | .ok (some s) => .ok (some s)
  | .ok none =>
    if ctnr.upperDirPath ≠ [] ∧ lowerCPath.isPrefixOf (toLowerL ctnr.upperDirPath) then
      .ok (some (pathJoin ctnr.upperDirPath cPath))
    else
      .ok none

/-- Modelled from the spec: in-container path resolution, §4.2 steps 1-3:
(1) the first mount whose destination `d` is a case-insensitive prefix of
`p` gives `join(mount.source, p[len(d):])`; (2) otherwise, a known
upper-directory path that is a (case-insensitive) prefix of `p` gives
`join(upper_dir, p)`; (3) otherwise resolution fails. -/
def specFindSource (ctnr : ContainerBackup) (p : List Char) : Option (List Char) :=
  match ctnr.allVolumes.find? (fun vol => (toLowerL vol.destination).isPrefixOf (toLowerL p)) with
  | some vol => some (pathJoin vol.source (p.drop vol.destination.length))
  | none =>
    if ctnr.upperDirPath ≠ [] ∧ (toLowerL ctnr.upperDirPath).isPrefixOf (toLowerL p) then
      some (pathJoin ctnr.upperDirPath p)
    else
      none

/-! ### Volume backup and archive-tool path validation -/

/-- The `paths` slice built by `runVolumeBackup` in `part_008`:
`make([]string, len(BackupVolumes))` allocates `n` empty strings, and the
loop then `append`s the `n` sources after them. -/
def runVolumeBackupPaths (ctnr : ContainerBackup) : List (List Char) :=
  ctnr.backupVolumes.map (fun _ => []) ++ ctnr.backupVolumes.map (·.source)

/-- `filepath.IsAbs`: the path begins with '/'. -/
def isAbsPath : List Char → Bool
  | '/' :: _ => true
  | _ => false

/-- The argument validation of `borg.Client.CreateWithPaths` in `borg.go`:
every path must be absolute. -/
def createWithPathsCheck : List (List Char) → Except String Unit
  | [] => .ok ()
  | p :: rest =>
    if isAbsPath p then createWithPathsCheck rest
    else .error "path is not an absolute path"

/-! ### Plan building (`newContainerProjectBackupJob` in `part_008`) -/

/-- Per-container validation: `if !ctnr.Exec.Stdout { ... }` dereferences
the nil `Exec` pointer when the container has no exec spec; with an exec
spec, every exec path must resolve to a source, and every declared
dependency must name a sibling service. -/
def checkExecPaths (ctnr : ContainerBackup) : List (List Char) → GoResult (Except String Unit)
  | [] => .ok (.ok ())
  | cPath :: rest =>
    match findSourceForInContainerPath ctnr cPath with
    | .panics m => .panics m
    | .ok none => .ok (.error "no source for in-container path")
    | .ok (some _) => checkExecPaths ctnr rest

def checkDeps (containers : List (String × ContainerBackup)) : List String →
    Except String Unit
  | [] => .ok ()
  | dep :: rest =>
    match alGet containers dep with
    | none => .error "dependency not found"
    | some _ => checkDeps containers rest

def validateContainer (containers : List (String × ContainerBackup))
    (ctnr : ContainerBackup) : GoResult (Except String Unit) :=
  match ctnr.exec with
  | none => .panics "runtime error: invalid memory address or nil pointer dereference"
  | some e =>
    let pathsCheck : GoResult (Except String Unit) :=
      if ¬ e.stdout then checkExecPaths ctnr e.paths else .ok (.ok ())
    match pathsCheck with
    | .panics m => .panics m
    | .ok (.error er) => .ok (.error er)
    | .ok (.ok ()) => .ok (checkDeps containers ctnr.dependencies)

def validateAll (containers : List (String × ContainerBackup)) :
    List ContainerBackup → GoResult (Except String Unit)
  | [] => .ok (.ok ())
  | ctnr :: rest =>
    match validateContainer containers ctnr with
    | .panics m => .panics m
    | .ok (.error er) => .ok (.error er)
    | .ok (.ok ()) => validateAll containers rest

/-- `newContainerProjectBackupJob`: reject empty projects, sort the
containers of the (map-ordered) snapshot into the plan, validate every
container, and require a known engine. Returns the plan. -/
def newContainerProjectBackupJob (proj : BackupProject) :
    GoResult (Except String (List ContainerBackup)) :=
  if proj.containers = [] then .ok (.error "nothing to do")
  else
    let values := proj.containers.map Prod.snd
    let plan := goSort planLess values
    match validateAll proj.containers values with
    | .panics m => .panics m
    | .ok (.error er) => .ok (.error er)
    | .ok (.ok ()) =>
      if proj.engine = "docker" then .ok (.ok plan)
      else .ok (.error "unknown container engine")

/-! ### Archive-tool subprocess environment logging (`part_005`) -/

/-- Substring test (`strings.Contains`). -/
def substrB (s pat : List Char) : Bool :=
  match s with
  | [] => pat.isPrefixOf ([] : List Char)
  | _ :: rest => pat.isPrefixOf s || substrB rest pat

/-- The masking decision of `api.Run`: the lowercase key must contain the
substring `"_pass"`. -/
def maskKeyGo (key : List Char) : Bool :=
  substrB (toLowerL key) "_pass".data

/-- Modelled from the spec: "Any env key containing the substring `pass`
(case-insensitive) is masked when logged." -/
def maskKeySpec (key : List Char) : Bool :=
  substrB (toLowerL key) "pass".data

/-- The debug log line `api.Run` emits for one configured env entry
(`cmd.Env` starts out nil, so every configured entry is logged by the
remainder loop). -/
def envLogLine (key value : List Char) : List Char :=
  if maskKeyGo key then key ++ (" = ******".data)
  else key ++ (" = ".data) ++ value

def envLogLines (env : List (List Char × List Char)) : List (List Char) :=
  env.map (fun kv => envLogLine kv.1 kv.2)

/-! ## Helper lemmas -/

theorem alGet_alSet_same {β : Type} (m : List (String × β)) (k : String) (v : β) :
    alGet (alSet m k v) k = some v := by
  induction m with
  | nil => simp [alSet, alGet]
  | cons kv rest ih =>
    obtain ⟨k', w⟩ := kv
    by_cases h : k' = k <;> simp [alSet, alGet, h, ih]

theorem alGet_alSet_other {β : Type} (m : List (String × β)) (k q : String) (v : β)
    (h : q ≠ k) : alGet (alSet m k v) q = alGet m q := by
  induction m with
  | nil =>
    have : ¬ k = q := fun h' => h h'.symm
    simp [alSet, alGet, this]
  | cons kv rest ih =>
    obtain ⟨k', w⟩ := kv
    by_cases hk : k' = k
    · subst hk
      have : ¬ k' = q := fun h' => h h'.symm
      simp [alSet, alGet, this]
    · simp only [alSet, if_neg hk, alGet]
      by_cases hq : k' = q <;> simp [hq, ih]

theorem sha256_length (m : List Nat) : (sha256 m).length = 32 := by
  simp [Sha256.sha256, Sha256.wordBytesBE]

theorem length_flatMap_pair {α β : Type} (f g : α → β) :
    ∀ l : List α, (l.flatMap (fun a => [f a, g a])).length = 2 * l.length
  | [] => rfl
  | a :: rest => by
    have ih := length_flatMap_pair f g rest
    rw [List.flatMap_cons, List.length_append, ih]
    simp only [List.length_cons, List.length_nil]
    omega

theorem hexChars_length (bs : List Nat) : (hexChars bs).length = 2 * bs.length :=
  length_flatMap_pair _ _ bs

theorem sum_ne_empty (data : List Nat) : sum data ≠ "" := by
  intro h
  have hlen : (hexChars (sha256 data)).length = 64 := by
    rw [hexChars_length, sha256_length]
  have : (hexChars (sha256 data)) = [] := congrArg String.data h
  rw [this] at hlen
  simp at hlen

theorem metadataPath_ne_valuePath (id : String) : metadataPath id ≠ valuePath id := by
  intro h
  have := List.append_cancel_left (h : id.data ++ ".json".data = id.data ++ ".age".data)
  simp at this

/-- Stability of the recovery-state load under writes to other paths. -/
theorem loadRecovery_stable (cr : Crypto) (st : Store) (secret : List Nat)
    (p : List Char) (v : List Nat)
    (h1 : ".recovery".data ≠ p) (h2 : ".recovery.sum".data ≠ p) :
    loadRecoveryRecipient cr (writeFileS st p v) secret = loadRecoveryRecipient cr st secret := by
  simp only [loadRecoveryRecipient,
    lookupFile_writeFileS_other st p ".recovery".data v h1,
    lookupFile_writeFileS_other st p ".recovery.sum".data v h2]

/-- A concrete crypto instantiation for closed evaluations: identity-like
encryption, a fixed generated identity, recipients parsed as raw text. -/
def testCrypto : Crypto where
  openIdentity := fun _ _ => some ⟨[7]⟩
  sealIdentity := fun _ _ => List.replicate 12 0 ++ [9]
  genIdentity := some ⟨[7]⟩
  parseRecipient := fun bs => some ⟨bs⟩
  recipientOf := fun i => ⟨i.text⟩
  encValue := fun _ v => v
  decValue := fun _ v => some v
  parseVersionLe := fun _ => some true

/-! ## Claim C2: in-container path resolution -/

def c2Mount : Volume := ⟨"volume".data, "data".data, "/host".data, "/data".data⟩

def c2Ctnr : ContainerBackup :=
  ⟨"c1".data, "svc", .default, [], none, [], [c2Mount], []⟩

def c2MountB : Volume := ⟨"volume".data, "data".data, "/host2".data, "/data/full".data⟩

def c2CtnrB : ContainerBackup :=
  ⟨"c2".data, "svc2", .default, [], none, [], [c2MountB], []⟩

/-- C2: the claim says a mount destination `d` that is a case-insensitive
prefix of the requested path `p` resolves to `join(source, p[len(d):])`.
The code tests the reversed containment (`p` a prefix of `d`): for mount
destination "/data" (source "/host") and requested path "/data/sub",
resolution fails (the plan is rejected) where the spec resolves to
"/host/sub"; and when the reversed test does match strictly (destination
"/data/full", requested path "/data"), the slice `p[len(d):]` panics. -/
theorem c2_resolution_reversed :
    findSourceForInContainerPath c2Ctnr "/data/sub".data = .ok none ∧
    specFindSource c2Ctnr "/data/sub".data = some "/host/sub".data ∧
    findSourceForInContainerPath c2CtnrB "/data".data = .panics "slice bounds out of range" := by
  decide

/-! ## Claim C3: volume backup paths -/

def c3Vol : Volume := ⟨"volume".data, "v".data, "/vol".data, "/data".data⟩

def c3Ctnr : ContainerBackup :=
  ⟨"c3".data, "svc3", .offline, [], none, [c3Vol], [c3Vol], []⟩

/-- C3: the claim says the archive-tool create-with-paths call receives
exactly the sources of the backup-volumes entries, one per entry.
`runVolumeBackup` allocates `make([]string, n)` — `n` empty strings — and
appends the `n` sources after them, so the call receives `2 n` paths: for
a single backup volume with source "/vol" it receives `["", "/vol"]`, and
`CreateWithPaths` then rejects the empty string as non-absolute. -/
theorem c3_volume_paths_doubled :
    (∀ ctnr : ContainerBackup,
      (runVolumeBackupPaths ctnr).length = 2 * ctnr.backupVolumes.length) ∧
    runVolumeBackupPaths c3Ctnr = [[], "/vol".data] ∧
    runVolumeBackupPaths c3Ctnr ≠ ["/vol".data] ∧
    createWithPathsCheck (runVolumeBackupPaths c3Ctnr) =
      .error "path is not an absolute path" := by
  refine ⟨fun ctnr => ?_, by decide, by decide, by decide⟩
  simp only [runVolumeBackupPaths, List.length_append, List.length_map]
  omega

/-! ## Claim C8: env masking in the archive-tool subprocess log -/

/-- C8 counterexample: the claim says any env key containing "pass"
(case-insensitive) is masked; the code masks only on the substring
"_pass", so key "PASSWORD" is logged with its value in clear. -/
theorem c8_counterexample :
    maskKeySpec "PASSWORD".data = true ∧
    maskKeyGo "PASSWORD".data = false ∧
    envLogLine "PASSWORD".data "hunter2".data = "PASSWORD = hunter2".data := by
  decide

/-- C8 (amended): an env entry is masked in the debug log iff its key
contains the substring "_pass" case-insensitively; the decision depends
only on that test. -/
theorem c8_mask_underscore_only (env : List (List Char × List Char)) (k v : List Char)
    (hmem : (k, v) ∈ env) :
    (substrB (toLowerL k) "_pass".data = true →
      (k ++ " = ******".data) ∈ envLogLines env) ∧
    (substrB (toLowerL k) "_pass".data = false →
      (k ++ " = ".data ++ v) ∈ envLogLines env) := by
  refine ⟨fun h => ?_, fun h => ?_⟩
  · have hline : envLogLine k v = k ++ " = ******".data := by
      simp [envLogLine, maskKeyGo, h]
    have : envLogLine k v ∈ envLogLines env :=
      List.mem_map_of_mem (fun kv => envLogLine kv.1 kv.2) hmem
    rwa [hline] at this
  · have hline : envLogLine k v = k ++ " = ".data ++ v := by
      simp [envLogLine, maskKeyGo, h]
    have : envLogLine k v ∈ envLogLines env :=
      List.mem_map_of_mem (fun kv => envLogLine kv.1 kv.2) hmem
    rwa [hline] at this

theorem c8_mask_underscore_only_witness :
    (("BORG_PASSPHRASE".data, "s3cret".data) ∈ [("BORG_PASSPHRASE".data, "s3cret".data)]) ∧
    ((substrB (toLowerL "BORG_PASSPHRASE".data) "_pass".data = true →
      ("BORG_PASSPHRASE".data ++ " = ******".data) ∈
        envLogLines [("BORG_PASSPHRASE".data, "s3cret".data)]) ∧
    (substrB (toLowerL "BORG_PASSPHRASE".data) "_pass".data = false →
      ("BORG_PASSPHRASE".data ++ " = ".data ++ "s3cret".data) ∈
        envLogLines [("BORG_PASSPHRASE".data, "s3cret".data)])) :=
  ⟨by decide, c8_mask_underscore_only _ _ _ (by decide)⟩

/-! ## Claim C9: nil exec spec during plan building -/

def c9Vol : Volume := ⟨"volume".data, "v".data, "/vol9".data, "/d9".data⟩

def c9Ctnr : ContainerBackup :=
  ⟨"c9".data, "svc9", .offline, [], none, [c9Vol], [c9Vol], []⟩

def c9Proj : BackupProject := ⟨"docker", "p9", [("svc9", c9Ctnr)]⟩

/-- C9: building the container-project backup job for a project with a
volume-only container (no exec spec) dereferences the nil exec spec in
`!ctnr.Exec.Stdout` and panics instead of returning an error; the
per-container validation panics for every container without an exec
spec. -/
theorem c9_nil_exec_panics :
    newContainerProjectBackupJob c9Proj =
      .panics "runtime error: invalid memory address or nil pointer dereference" ∧
    (∀ (containers : List (String × ContainerBackup)) (ctnr : ContainerBackup),
      ctnr.exec = none →
      validateContainer containers ctnr =
        .panics "runtime error: invalid memory address or nil pointer dereference") := by
  refine ⟨by decide, fun containers ctnr h => ?_⟩
  simp [validateContainer, h]

theorem c9_nil_exec_panics_witness :
    c9Ctnr.exec = none ∧
    validateContainer [] c9Ctnr =
      .panics "runtime error: invalid memory address or nil pointer dereference" :=
  ⟨rfl, c9_nil_exec_panics.2 [] c9Ctnr rfl⟩

/-! ## Claim C10: metadata files shorter than 32 bytes -/

theorem readAllFrom_panics (st : Store) (secret : List Nat) (path : List Char)
    (content : List Nat) (hlook : lookupFile st path = some content)
    (hlen : content.length < 32) (hext : extOf path = ".json".data) :
    ∀ (entries : List (List Char)) (acc : ItemMap), path ∈ entries →
      ∃ m, readAllMetadataFrom st secret entries acc = .panics m := by
  intro entries
  induction entries with
  | nil => intro acc h; simp at h
  | cons e rest ih =>
    intro acc hmem
    by_cases he : e = path
    · subst he
      have hread : readItemMetadataUnsafe st e secret = .panics "slice bounds out of range" := by
        simp [readItemMetadataUnsafe, hlook, hlen]
      refine ⟨"slice bounds out of range", ?_⟩
      simp [readAllMetadataFrom, hext, hread]
    · have hmem' : path ∈ rest := by
        cases List.mem_cons.mp hmem with
        | inl h => exact absurd h.symm he
        | inr h => exact h
      simp only [readAllMetadataFrom]
      by_cases hext2 : extOf e = ".json".data
      · rw [if_pos hext2]
        cases hr : readItemMetadataUnsafe st e secret with
        | panics m => exact ⟨m, rfl⟩
        | ok r =>
          cases r with
          | error _ => exact ih _ hmem'
          | ok md => exact ih _ hmem'
      · rw [if_neg hext2]
        exact ih _ hmem'

/-- C10: reading a stored metadata file shorter than 32 bytes panics
(Go slices `metadataBytes[:len-32]` with a negative bound) instead of
failing with a corrupt-metadata error; this propagates through unlock's
load of all metadata; with at least 32 bytes the read always returns
normally (possibly with an error value). -/
theorem c10_short_metadata_panics (st : Store) (path : List Char) (secret content : List Nat)
    (hlook : lookupFile st path = some content) (hlen : content.length < 32) :
    readItemMetadataUnsafe st path secret = .panics "slice bounds out of range" ∧
    (extOf path = ".json".data → path ∈ listFilesS st →
      ∃ m, readAllMetadataUnsafe st secret = .panics m) ∧
    (∀ (st2 : Store) (p2 : List Char) (s2 c2 : List Nat),
      lookupFile st2 p2 = some c2 → 32 ≤ c2.length →
      ∃ r, readItemMetadataUnsafe st2 p2 s2 = .ok r) := by
  refine ⟨by simp [readItemMetadataUnsafe, hlook, hlen], fun hext hmem => ?_, ?_⟩
  · exact readAllFrom_panics st secret path content hlook hlen hext _ [] hmem
  · intro st2 p2 s2 c2 hl hge
    simp only [readItemMetadataUnsafe, hl]
    rw [if_neg (by omega)]
    split
    · exact ⟨_, rfl⟩
    · split
      · exact ⟨_, rfl⟩
      · split
        · exact ⟨_, rfl⟩
        · exact ⟨_, rfl⟩

def c10Store : Store := [("a.json".data, [1, 2, 3])]

theorem c10_short_metadata_panics_witness :
    lookupFile c10Store "a.json".data = some [1, 2, 3] ∧
    ([1, 2, 3] : List Nat).length < 32 ∧
    (readItemMetadataUnsafe c10Store "a.json".data [] = .panics "slice bounds out of range" ∧
    (extOf "a.json".data = ".json".data → "a.json".data ∈ listFilesS c10Store →
      ∃ m, readAllMetadataUnsafe c10Store [] = .panics m) ∧
    (∀ (st2 : Store) (p2 : List Char) (s2 c2 : List Nat),
      lookupFile st2 p2 = some c2 → 32 ≤ c2.length →
      ∃ r, readItemMetadataUnsafe st2 p2 s2 = .ok r)) :=
  ⟨by decide, by decide,
    c10_short_metadata_panics c10Store "a.json".data [] [1, 2, 3] (by decide) (by decide)⟩

/-! ## Claim C5: recovery sum -/

/-- C5 counterexample: the content written to `.recovery.sum` is the hex
SHA-256 of the recipient text with the secret appended
(`createRecoveryHash` calls `sum` on the concatenation), which differs
from HMAC-SHA256 keyed with the secret over the text: shown here for
recipient text `[114]` ("r") and secret `[107]` ("k"). -/
theorem c5_counterexample :
    lookupFile (writeRecoveryRecipient [] ⟨[114]⟩ [107]) ".recovery.sum".data =
      some (strBytes (sum ([114] ++ [107]))) ∧
    sum ([114] ++ [107]) ≠ (⟨hexChars (hmacSha256 [107] [114])⟩ : String) := by
  decide

/-- C5 (amended): the content written to `.recovery.sum` equals the
lowercase hex SHA-256 of the recipient's textual form concatenated with
the identity-derived metadata secret (a plain hash of the concatenation,
not an HMAC), and loading the recovery recipient fails when the stored
sum does not equal that value recomputed from the stored recipient. -/
theorem c5_recovery_sum (cr : Crypto) (st : Store) (r : Recipient) (secret : List Nat)
    (storedRec storedSum : List Nat)
    (h1 : lookupFile st ".recovery".data = some storedRec)
    (h2 : lookupFile st ".recovery.sum".data = some storedSum)
    (h3 : cr.parseRecipient storedRec = some r)
    (h4 : storedSum ≠ strBytes (createRecoveryHash r secret)) :
    (∀ (st0 : Store) (r0 : Recipient) (s0 : List Nat),
      lookupFile (writeRecoveryRecipient st0 r0 s0) ".recovery.sum".data =
        some (strBytes (sum (r0.text ++ s0)))) ∧
    loadRecoveryRecipient cr st secret = .error ".recovery.sum does not match" := by
  constructor
  · intro st0 r0 s0
    simp [writeRecoveryRecipient, lookupFile_writeFileS_same, createRecoveryHash]
  · simp [loadRecoveryRecipient, h1, h2, h3, h4]

def c5Store : Store := [(".recovery".data, [114]), (".recovery.sum".data, [0])]

theorem c5_recovery_sum_witness :
    lookupFile c5Store ".recovery".data = some [114] ∧
    lookupFile c5Store ".recovery.sum".data = some [0] ∧
    testCrypto.parseRecipient [114] = some ⟨[114]⟩ ∧
    [0] ≠ strBytes (createRecoveryHash ⟨[114]⟩ [107]) ∧
    ((∀ (st0 : Store) (r0 : Recipient) (s0 : List Nat),
      lookupFile (writeRecoveryRecipient st0 r0 s0) ".recovery.sum".data =
        some (strBytes (sum (r0.text ++ s0)))) ∧
    loadRecoveryRecipient testCrypto c5Store [107] = .error ".recovery.sum does not match") :=
  ⟨by decide, by decide, by decide, by decide,
    c5_recovery_sum testCrypto c5Store ⟨[114]⟩ [107] [114] [0]
      (by decide) (by decide) (by decide) (by decide)⟩

/-! ## Claim C4: unlock failure leaving partial state -/

def c4Store : Store :=
  [(".identity".data, List.replicate 12 0 ++ [1]), (".recovery.sum".data, [1])]

def c4State : VaultState := ⟨false, none, none, none, none, c4Store⟩

def c4StateAfter : VaultState :=
  { c4State with
    identityKey := some (deriveKey false (strBytes "hunter2")),
    metadataHmacSecret := some (deriveMetadataHmacSecret ⟨[7]⟩),
    primaryRecipient := some (⟨[7]⟩ : Recipient) }

/-- C4: on a locked vault whose store holds a decryptable `.identity`, no
`.version` and a stray `.recovery.sum` (so that the upgrade step fails
with ".recovery.sum exists"), `Unlock` returns an error but leaves the
identity key, the metadata HMAC secret and the primary recipient set:
`IsLocked` is false afterwards while the item map is still nil — exactly
the partial state the claim rules out. -/
theorem c4_upgrade_failure_partial_state :
    Unlock testCrypto c4State (strBytes "hunter2") =
      .ok (.error "failed to upgrade vault", c4StateAfter) ∧
    IsLocked c4StateAfter = false ∧
    c4StateAfter.identityKey ≠ none ∧
    c4StateAfter.metadataHmacSecret ≠ none ∧
    c4StateAfter.primaryRecipient ≠ none ∧
    c4StateAfter.items = none := by
  decide

/-! ## Claim C7: dependency ordering of the generated plan

`Less` is `contains(a.deps, b.svc) || a.Mode < b.Mode`, which is not a
strict weak order in general (a dependency on a lower-mode container makes
`Less` hold in both directions). The pairwise guarantees of the claim hold
exactly when the comparator is asymmetric and its complement transitive on
the project's containers; the sorting lemmas below establish that, and the
counterexample shows a legal project violating the claim as stated. -/

theorem mem_goInsertR {α : Type} (less : α → α → Bool) (x z : α) :
    ∀ l : List α, z ∈ goInsertR less x l → z = x ∨ z ∈ l
  | [] => by simp [goInsertR]
  | y :: ys => by
    simp only [goInsertR]
    by_cases h : less x y = true
    · rw [if_pos h]
      intro hz
      rcases List.mem_cons.mp hz with h1 | h2
      · exact .inr (h1 ▸ List.mem_cons_self _ _)
      · rcases mem_goInsertR less x z ys h2 with h3 | h4
        · exact .inl h3
        · exact .inr (List.mem_cons_of_mem _ h4)
    · rw [if_neg h]
      intro hz
      rcases List.mem_cons.mp hz with h1 | h2
      · exact .inl h1
      · exact .inr h2

theorem goInsertR_pairwise {α : Type} (less : α → α → Bool) (x : α) :
    ∀ l : List α,
      l.Pairwise (fun a b => less a b = false) →
      (∀ y ∈ l, less x y = true → less y x = false) →
      (∀ y ∈ l, ∀ z ∈ l, less x y = false → less y z = false → less x z = false) →
      (goInsertR less x l).Pairwise (fun a b => less a b = false)
  | [] => by
    intro _ _ _
    simp [goInsertR]
  | y :: ys => by
    intro hl hasym hneg
    have hy : ∀ z ∈ ys, less y z = false := (List.pairwise_cons.mp hl).1
    have hys : ys.Pairwise (fun a b => less a b = false) := (List.pairwise_cons.mp hl).2
    simp only [goInsertR]
    by_cases hxy : less x y = true
    · rw [if_pos hxy]
      refine List.pairwise_cons.mpr ⟨?_, ?_⟩
      · intro z hz
        rcases mem_goInsertR less x z ys hz with rfl | hzys
        · exact hasym y (List.mem_cons_self _ _) hxy
        · exact hy z hzys
      · exact goInsertR_pairwise less x ys hys
          (fun y2 hy2 => hasym y2 (List.mem_cons_of_mem _ hy2))
          (fun y2 hy2 z2 hz2 =>
            hneg y2 (List.mem_cons_of_mem _ hy2) z2 (List.mem_cons_of_mem _ hz2))
    · rw [if_neg hxy]
      have hxyf : less x y = false := by
        cases h : less x y with
        | true => exact absurd h hxy
        | false => rfl
      refine List.pairwise_cons.mpr ⟨?_, hl⟩
      intro z hz
      rcases List.mem_cons.mp hz with rfl | hzys
      · exact hxyf
      · exact hneg y (List.mem_cons_self _ _) z (List.mem_cons_of_mem _ hzys) hxyf (hy z hzys)

theorem goSortR_pairwise {α : Type} (less : α → α → Bool) :
    ∀ (l acc : List α),
      acc.Pairwise (fun a b => less a b = false) →
      (∀ a, (a ∈ l ∨ a ∈ acc) → ∀ b, (b ∈ l ∨ b ∈ acc) → less a b = true → less b a = false) →
      (∀ a, (a ∈ l ∨ a ∈ acc) → ∀ b, (b ∈ l ∨ b ∈ acc) → ∀ c, (c ∈ l ∨ c ∈ acc) →
        less a b = false → less b c = false → less a c = false) →
      (goSortR less acc l).Pairwise (fun a b => less a b = false)
  | [], _ => fun hacc _ _ => hacc
  | x :: xs, acc => by
    intro hacc hasym hneg
    show (goSortR less (goInsertR less x acc) xs).Pairwise _
    have tr : ∀ w, (w ∈ xs ∨ w ∈ goInsertR less x acc) → (w ∈ x :: xs ∨ w ∈ acc) := by
      intro w hw
      rcases hw with h | h
      · exact .inl (List.mem_cons_of_mem _ h)
      · rcases mem_goInsertR less x w acc h with rfl | h2
        · exact .inl (List.mem_cons_self _ _)
        · exact .inr h2
    refine goSortR_pairwise less xs (goInsertR less x acc) ?_ ?_ ?_
    · refine goInsertR_pairwise less x acc hacc ?_ ?_
      · exact fun y hy => hasym x (.inl (List.mem_cons_self _ _)) y (.inr hy)
      · exact fun y hy z hz =>
          hneg x (.inl (List.mem_cons_self _ _)) y (.inr hy) z (.inr hz)
    · exact fun a ha b hb => hasym a (tr a ha) b (tr b hb)
    · exact fun a ha b hb c hc => hneg a (tr a ha) b (tr b hb) c (tr c hc)

theorem goSort_pairwise {α : Type} (less : α → α → Bool) (l : List α)
    (hasym : ∀ a ∈ l, ∀ b ∈ l, less a b = true → less b a = false)
    (hneg : ∀ a ∈ l, ∀ b ∈ l, ∀ c ∈ l,
      less a b = false → less b c = false → less a c = false) :
    (goSort less l).Pairwise (fun a b => less b a = false) := by
  have hmem : ∀ w : α, (w ∈ l ∨ w ∈ ([] : List α)) → w ∈ l := by
    intro w hw
    rcases hw with h | h
    · exact h
    · cases h
  have h := goSortR_pairwise less l [] List.Pairwise.nil
    (fun a ha b hb => hasym a (hmem a ha) b (hmem b hb))
    (fun a ha b hb c hc => hneg a (hmem a ha) b (hmem b hb) c (hmem c hc))
  rw [goSort]
  exact List.pairwise_reverse.mpr h

theorem planLess_eq_false_iff (a b : ContainerBackup) :
    planLess a b = false ↔
      a.dependencies.contains b.serviceName = false ∧ bmLt a.mode b.mode = false := by
  simp [planLess]

/-- The plan returned by a successful job build is the comparator-sorted
container list. -/
theorem newContainerProjectBackupJob_plan (proj : BackupProject)
    (p : List ContainerBackup)
    (hp : newContainerProjectBackupJob proj = .ok (.ok p)) :
    p = goSort planLess (proj.containers.map Prod.snd) := by
  unfold newContainerProjectBackupJob at hp
  split at hp
  · exact absurd hp (by simp)
  · dsimp only at hp
    split at hp
    · exact absurd hp (by simp)
    · exact absurd hp (by simp)
    · split at hp
      · simp only [GoResult.ok.injEq, Except.ok.injEq] at hp
        exact hp.symm
      · exact absurd hp (by simp)

/-- C7 (amended): provided the plan comparator is asymmetric and its
complement transitive on the project's containers (a strict weak order —
e.g. when dependencies always point at containers of equal or higher
mode and are transitive), every successfully built plan satisfies both
claimed properties: no container appears before one that declares it as a
dependency, and of two containers with no dependency between them the one
with the lower mode enum value comes first. -/
theorem c7_plan_order (proj : BackupProject)
    (hasym : ∀ a ∈ proj.containers.map Prod.snd, ∀ b ∈ proj.containers.map Prod.snd,
      planLess a b = true → planLess b a = false)
    (hneg : ∀ a ∈ proj.containers.map Prod.snd, ∀ b ∈ proj.containers.map Prod.snd,
      ∀ c ∈ proj.containers.map Prod.snd,
      planLess a b = false → planLess b c = false → planLess a c = false) :
    ∀ p, newContainerProjectBackupJob proj = .ok (.ok p) →
      p.Pairwise (fun a b => b.dependencies.contains a.serviceName = false) ∧
      p.Pairwise (fun a b => a.dependencies.contains b.serviceName = true ∨
        b.dependencies.contains a.serviceName = true ∨ bmLt b.mode a.mode = false) := by
  intro p hp
  have hpeq := newContainerProjectBackupJob_plan proj p hp
  subst hpeq
  have hpw := goSort_pairwise planLess (proj.containers.map Prod.snd) hasym hneg
  constructor
  · exact hpw.imp (fun h => ((planLess_eq_false_iff _ _).mp h).1)
  · exact hpw.imp (fun h => .inr (.inr ((planLess_eq_false_iff _ _).mp h).2))

def c7ExecStdout : ContainerExecBackup := ⟨["true".data], true, []⟩

/-- `x` depends on `y` but has the higher mode: the comparator holds in
both directions, and insertion sort places `y` first. -/
def c7X : ContainerBackup :=
  ⟨"cx".data, "x", .dependentOffline, [], some c7ExecStdout, [], [], ["y"]⟩

def c7Y : ContainerBackup :=
  ⟨"cy".data, "y", .default, [], some c7ExecStdout, [], [], []⟩

def c7Proj : BackupProject := ⟨"docker", "p7", [("x", c7X), ("y", c7Y)]⟩

/-- C7 counterexample: for the legal project with containers `x`
(dependent-offline, depends on `y`) and `y` (default), the job builds
successfully and its plan is `[y, x]`: `y` appears before `x` although `x`
declares `y` as a dependency, violating the claim as stated. -/
theorem c7_counterexample :
    newContainerProjectBackupJob c7Proj = .ok (.ok [c7Y, c7X]) ∧
    c7X.dependencies.contains c7Y.serviceName = true ∧
    ¬ ([c7Y, c7X].Pairwise
        (fun a b => b.dependencies.contains a.serviceName = false)) := by
  refine ⟨by decide, by decide, ?_⟩
  intro h
  have := (List.pairwise_cons.mp h).1 c7X (List.mem_cons_self _ _)
  simp [c7X, c7Y] at this

def c7Server : ContainerBackup :=
  ⟨"cs".data, "server", .default, [], some c7ExecStdout, [], [], ["db"]⟩

def c7Db : ContainerBackup :=
  ⟨"cd".data, "db", .dependentOffline, [], some c7ExecStdout, [], [], []⟩

def c7ProjW : BackupProject := ⟨"docker", "pw", [("db", c7Db), ("server", c7Server)]⟩

theorem c7_plan_order_witness :
    (∀ a ∈ c7ProjW.containers.map Prod.snd, ∀ b ∈ c7ProjW.containers.map Prod.snd,
      planLess a b = true → planLess b a = false) ∧
    (∀ p, newContainerProjectBackupJob c7ProjW = .ok (.ok p) →
      p.Pairwise (fun a b => b.dependencies.contains a.serviceName = false) ∧
      p.Pairwise (fun a b => a.dependencies.contains b.serviceName = true ∨
        b.dependencies.contains a.serviceName = true ∨ bmLt b.mode a.mode = false)) ∧
    newContainerProjectBackupJob c7ProjW = .ok (.ok [c7Server, c7Db]) :=
  ⟨by decide, c7_plan_order c7ProjW (by decide) (by decide), by decide⟩

/-! ## Claim C1: create-item / set-value / get-value round trip -/

/-- C1: on an unlocked vault, for an item freshly created by create-item
and any non-empty plaintext P, set-value followed by get-value returns
exactly P; the checksum recorded in the item's metadata (in memory and on
disk) after set-value equals `sum P`, the lowercase hex SHA-256 of P.
Hypotheses: the vault is unlocked and consistent (`.identity` present and
decryptable to the identity whose key is held, the recovery state loads),
the external age library decrypts what it encrypted, and the fresh item
id does not collide with the vault's dot-files. -/
theorem c1_roundtrip_value (cr : Crypto) (st : VaultState) (desc newId : String)
    (now0 now1 : Nat) (P key secret idBytes : List Nat) (primary : Recipient)
    (m0 : ItemMap) (ident : Identity) (ro : Option Recipient)
    (hkey : st.identityKey = some key) (hkl : key.length = 32)
    (hsec : st.metadataHmacSecret = some secret)
    (hprim : st.primaryRecipient = some primary)
    (hitems : st.items = some m0)
    (hP : P ≠ [])
    (hidb : lookupFile st.store ".identity".data = some idBytes)
    (hidl : 12 ≤ idBytes.length)
    (hopen : cr.openIdentity key idBytes = some ident)
    (hdec : ∀ (rs : List Recipient) (d : List Nat), cr.decValue ident (cr.encValue rs d) = some d)
    (hrec : loadRecoveryRecipient cr st.store secret = .ok ro)
    (hf1 : ".identity".data ≠ metadataPath newId)
    (hf2 : ".identity".data ≠ valuePath newId)
    (hf3 : ".recovery".data ≠ metadataPath newId)
    (hf5 : ".recovery.sum".data ≠ metadataPath newId) :
    ∃ (item : Item) (st1 st2 : VaultState),
      CreateItem st desc newId now0 = (.ok item, st1) ∧
      item.checksum = "" ∧
      SetItemValue cr st1 newId P now1 = .ok (.ok (), st2) ∧
      GetItem cr st2 newId = .ok (.ok (some P)) ∧
      alGet (st2.items.getD []) newId = some ⟨newId, desc, none, sum P, now1⟩ ∧
      lookupFile st2.store (metadataPath newId) =
        some (encodeItemHmac ⟨newId, desc, none, sum P, now1⟩ secret) ∧
      sum P = (⟨hexChars (sha256 P)⟩ : String) := by
  have hIsL : IsLocked st = false := by simp [IsLocked, hkey]
  -- the item as created, the item after set-value, the evolving stores
  refine ⟨⟨newId, desc, none, "", now0⟩,
    { st with
      store := writeItemMetadataUnsafe st.store ⟨newId, desc, none, "", now0⟩ secret,
      items := some (alSet m0 newId ⟨newId, desc, none, "", now0⟩) },
    { st with
      store := writeItemMetadataUnsafe
        (writeFileS (writeItemMetadataUnsafe st.store ⟨newId, desc, none, "", now0⟩ secret)
          (valuePath newId)
          (cr.encValue (primary :: recoveryToList ro) P))
        ⟨newId, desc, none, sum P, now1⟩ secret,
      items := some (alSet (alSet m0 newId ⟨newId, desc, none, "", now0⟩) newId
        ⟨newId, desc, none, sum P, now1⟩) },
    ?_, rfl, ?_, ?_, ?_, ?_, rfl⟩
  · -- CreateItem
    simp [CreateItem, hIsL, hsec, hitems]
  · -- SetItemValue
    have hload1 : loadRecoveryRecipient cr
        (writeItemMetadataUnsafe st.store ⟨newId, desc, none, "", now0⟩ secret) secret =
        .ok ro := by
      simp only [writeItemMetadataUnsafe]
      rw [loadRecovery_stable cr st.store secret _ _ hf3 hf5]
      exact hrec
    simp only [SetItemValue, writeItemValueUnsafe, encryptForRestUnsafe, IsLocked, hkey,
      Option.isNone_some, Bool.false_eq_true, if_false, hP, if_neg, hsec, hprim, hitems,
      Option.getD_some, alGet_alSet_same, hload1]
    simp [hP]
  · -- GetItem
    have hlookVal : lookupFile
        (writeItemMetadataUnsafe
          (writeFileS (writeItemMetadataUnsafe st.store ⟨newId, desc, none, "", now0⟩ secret)
            (valuePath newId)
            (cr.encValue (primary :: recoveryToList ro) P))
          ⟨newId, desc, none, sum P, now1⟩ secret)
        (valuePath newId) =
        some (cr.encValue (primary :: recoveryToList ro) P) := by
      simp only [writeItemMetadataUnsafe]
      rw [lookupFile_writeFileS_other _ _ _ _ (metadataPath_ne_valuePath newId).symm,
        lookupFile_writeFileS_same]
    have hlookId : lookupFile
        (writeItemMetadataUnsafe
          (writeFileS (writeItemMetadataUnsafe st.store ⟨newId, desc, none, "", now0⟩ secret)
            (valuePath newId)
            (cr.encValue (primary :: recoveryToList ro) P))
          ⟨newId, desc, none, sum P, now1⟩ secret)
        ".identity".data = some idBytes := by
      simp only [writeItemMetadataUnsafe]
      rw [lookupFile_writeFileS_other _ _ _ _ hf1,
        lookupFile_writeFileS_other _ _ _ _ hf2,
        lookupFile_writeFileS_other _ _ _ _ hf1]
      exact hidb
    have hkeysize : ¬ (key.length ≠ 16 ∧ key.length ≠ 24 ∧ key.length ≠ 32) := by
      rw [hkl]; omega
    have hread : readIdentity cr
        (writeItemMetadataUnsafe
          (writeFileS (writeItemMetadataUnsafe st.store ⟨newId, desc, none, "", now0⟩ secret)
            (valuePath newId)
            (cr.encValue (primary :: recoveryToList ro) P))
          ⟨newId, desc, none, sum P, now1⟩ secret)
        key = .ok (.ok ident) := by
      simp only [readIdentity, hlookId]
      rw [if_neg hkeysize, if_neg (show ¬ (idBytes.length < 12) from by omega), hopen]
    simp only [GetItem, IsLocked, hkey, Option.isNone_some, Bool.false_eq_true, if_false,
      Option.getD_some, alGet_alSet_same, readItemValueUnsafe, decryptFromRestUnsafe,
      hlookVal, hread, hdec]
    rw [if_neg (sum_ne_empty P), if_neg (by simp)]
  · -- the in-memory metadata after set-value
    simp [alGet_alSet_same]
  · -- the on-disk metadata after set-value
    simp only [writeItemMetadataUnsafe]
    rw [lookupFile_writeFileS_same]

def c1WitState : VaultState :=
  ⟨false, some (sha256 [0]), some [5], some ⟨[7]⟩, some [],
    [(".identity".data, List.replicate 12 0 ++ [1])]⟩

theorem c1_roundtrip_value_witness :
    ∃ (item : Item) (st1 st2 : VaultState),
      CreateItem c1WitState "d" "a" 0 = (.ok item, st1) ∧
      item.checksum = "" ∧
      SetItemValue testCrypto st1 "a" [104, 105] 1 = .ok (.ok (), st2) ∧
      GetItem testCrypto st2 "a" = .ok (.ok (some [104, 105])) ∧
      alGet (st2.items.getD []) "a" = some ⟨"a", "d", none, sum [104, 105], 1⟩ ∧
      lookupFile st2.store (metadataPath "a") =
        some (encodeItemHmac ⟨"a", "d", none, sum [104, 105], 1⟩ [5]) ∧
      sum [104, 105] = (⟨hexChars (sha256 [104, 105])⟩ : String) :=
  c1_roundtrip_value testCrypto c1WitState "d" "a" 0 1 [104, 105] (sha256 [0]) [5]
    (List.replicate 12 0 ++ [1]) ⟨[7]⟩ [] ⟨[7]⟩ none
    rfl (sha256_length [0]) rfl rfl rfl (by decide) rfl (by decide) rfl
    (fun _ _ => rfl) (by decide)
    (by decide) (by decide) (by decide) (by decide)

/-! ## Claim C6: peer pinning

Helper lemmas first: store/map stability, path disjointness, and the
behavior of metadata reads on well-formed files. -/

theorem lookupFile_deleteFileS_other (st : Store) (p q : List Char) (h : q ≠ p) :
    lookupFile (deleteFileS st p).2 q = lookupFile st q := by
  induction st with
  | nil => simp [deleteFileS]
  | cons kv rest ih =>
    obtain ⟨k, w⟩ := kv
    by_cases hk : k = p
    · subst hk
      have : ¬ k = q := fun h' => h h'.symm
      simp [deleteFileS, lookupFile, this]
    · simp only [deleteFileS, if_neg hk]
      by_cases hq : k = q <;> simp [lookupFile, hq, ih]

theorem alGet_alDel_other {β : Type} (m : List (String × β)) (k q : String) (h : q ≠ k) :
    alGet (alDel m k) q = alGet m q := by
  induction m with
  | nil => simp [alDel]
  | cons kv rest ih =>
    obtain ⟨k', w⟩ := kv
    by_cases hk : k' = k
    · subst hk
      have : ¬ k' = q := fun h' => h h'.symm
      simp [alDel, alGet, this]
    · simp only [alDel, if_neg hk]
      by_cases hq : k' = q <;> simp [alGet, hq, ih]

theorem mem_alSet {β : Type} (m : List (String × β)) (k : String) (v : β) :
    ∀ kv ∈ alSet m k v, kv = (k, v) ∨ kv ∈ m := by
  induction m with
  | nil => simp [alSet]
  | cons kw rest ih =>
    obtain ⟨k', w⟩ := kw
    intro kv hkv
    by_cases hk : k' = k
    · subst hk
      simp only [alSet, if_pos rfl] at hkv
      rcases List.mem_cons.mp hkv with h | h
      · exact .inl (by simpa using h)
      · exact .inr (List.mem_cons_of_mem _ h)
    · simp only [alSet, if_neg hk] at hkv
      rcases List.mem_cons.mp hkv with h | h
      · exact .inr (h ▸ List.mem_cons_self _ _)
      · rcases ih kv h with h2 | h2
        · exact .inl h2
        · exact .inr (List.mem_cons_of_mem _ h2)

theorem valuePath_ne_metadataPath (x y : String) : valuePath x ≠ metadataPath y := by
  intro h
  have h1 : (valuePath x).getLast? = (metadataPath y).getLast? := congrArg List.getLast? h
  rw [valuePath, metadataPath, List.getLast?_append, List.getLast?_append] at h1
  have e1 : (".age".data).getLast? = some 'e' := rfl
  have e2 : (".json".data).getLast? = some 'n' := rfl
  rw [e1, e2] at h1
  simp [Option.or] at h1

theorem take5_of_backupPath_eq (x : String) (n : Nat) (y : String)
    (hlen : 5 ≤ y.data.length) (h : backupPath x n = metadataPath y) :
    y.data.take 5 = ".bak/".data := by
  have h5 : (backupPath x n).take 5 = (metadataPath y).take 5 := congrArg (List.take 5) h
  rw [backupPath, metadataPath] at h5
  rw [List.take_left' (show (".bak/".data).length = 5 from rfl)] at h5
  rw [List.take_append_eq_append_take] at h5
  have hy : 5 - y.data.length = 0 := by omega
  rw [hy] at h5
  simp at h5
  exact h5.symm

theorem backupPath_ne_metadataPath (x : String) (n : Nat) (y : String)
    (hlen : 5 ≤ y.data.length) (hpfx : y.data.take 5 ≠ ".bak/".data) :
    backupPath x n ≠ metadataPath y :=
  fun h => hpfx (take5_of_backupPath_eq x n y hlen h)

theorem hmacSha256_length (k m : List Nat) : (hmacSha256 k m).length = 32 :=
  sha256_length _

/-- A metadata file written by `writeItemMetadataUnsafe` reads back as its
item. -/
theorem readItemMetadata_encode (st : Store) (p : List Char) (it : Item) (secret : List Nat)
    (hlook : lookupFile st p = some (encodeItemHmac it secret))
    (hpath : p = metadataPath it.id) :
    readItemMetadataUnsafe st p secret = .ok (.ok it) := by
  have hlen : (encodeItemHmac it secret).length = (encodeItem it).length + 32 := by
    rw [encodeItemHmac, List.length_append, hmacSha256_length]
  have htake : (encodeItemHmac it secret).take ((encodeItemHmac it secret).length - 32) =
      encodeItem it := by
    rw [hlen, Nat.add_sub_cancel, encodeItemHmac]
    exact List.take_left' rfl
  have hdrop : (encodeItemHmac it secret).drop ((encodeItemHmac it secret).length - 32) =
      hmacSha256 secret (encodeItem it) := by
    rw [hlen, Nat.add_sub_cancel, encodeItemHmac]
    exact List.drop_left' rfl
  simp only [readItemMetadataUnsafe, hlook]
  rw [if_neg (by omega)]
  simp only [htake, hdrop, decodeItem_encodeItem]
  rw [if_neg (by simp), if_neg (by simp [hpath])]

/-- Inversion: a successful metadata read implies the path names the item. -/
theorem readItemMetadata_ok_path (st : Store) (p : List Char) (secret : List Nat) (it : Item)
    (h : readItemMetadataUnsafe st p secret = .ok (.ok it)) : p = metadataPath it.id := by
  unfold readItemMetadataUnsafe at h
  split at h
  · simp at h
  · split at h
    · simp at h
    · dsimp only at h
      split at h
      · simp at h
      · split at h
        · simp at h
        · split at h
          · simp at h
          · rename_i hpath
            simp only [GoResult.ok.injEq, Except.ok.injEq] at h
            subst h
            exact not_ne_iff.mp hpath

/-- Soundness of the metadata directory scan: every item in the result
either was in the accumulator or reads back from the store. -/
theorem readAllFrom_sound (st : Store) (secret : List Nat) :
    ∀ (entries : List (List Char)) (acc res : ItemMap),
      readAllMetadataFrom st secret entries acc = .ok res →
      (∀ kv ∈ acc, readItemMetadataUnsafe st (metadataPath kv.2.id) secret = .ok (.ok kv.2)) →
      ∀ kv ∈ res, readItemMetadataUnsafe st (metadataPath kv.2.id) secret = .ok (.ok kv.2)
  | [], acc, res => by
    intro h hacc
    simp only [readAllMetadataFrom, GoResult.ok.injEq] at h
    subst h
    exact hacc
  | e :: rest, acc, res => by
    intro h hacc
    simp only [readAllMetadataFrom] at h
    by_cases hext : extOf e = ".json".data
    · rw [if_pos hext] at h
      revert h
      cases hr : readItemMetadataUnsafe st e secret with
      | panics m => intro h; simp at h
      | ok r =>
        cases r with
        | error _ => exact fun h => readAllFrom_sound st secret rest acc res h hacc
        | ok md =>
          intro h
          refine readAllFrom_sound st secret rest (alSet acc md.id md) res h ?_
          intro kv hkv
          rcases mem_alSet acc md.id md kv hkv with rfl | hmem
          · have hpe := readItemMetadata_ok_path st e secret md hr
            rw [← hpe]
            exact hr
          · exact hacc kv hmem
    · rw [if_neg hext] at h
      exact readAllFrom_sound st secret rest acc res h hacc

/-- The vault's operation alphabet, used to state that no operation other
than delete-item rewrites or clears a pinned peer. -/
inductive VaultOp where
  | unlockOp (pass : List Nat)
  | lockOp
  | verifyOp (pass : List Nat)
  | itemsOp
  | createOp (description newId : String) (now : Nat)
  | deleteOp (id : String)
  | getOp (id : String)
  | getForPeerOp (id : String) (peer : String)
  | setValueOp (id : String) (value : List Nat) (now : Nat)
  | setRecoveryOp (recipient : Recipient) (now : Nat)

/-- State transition of each vault operation. `Items`, `GetItem` and
`VerifyPassphrase` are read-only by construction (shared lock in Go) and
return the state unchanged. -/
def applyOp (cr : Crypto) (st : VaultState) : VaultOp → GoResult VaultState
  | .unlockOp pass =>
    match Unlock cr st pass with
    | .panics m => .panics m
    | .ok (_, st') => .ok st'
  | .lockOp => .ok (Lock st).2
  | .verifyOp _ => .ok st
  | .itemsOp => .ok st
  | .createOp d newId now => .ok (CreateItem st d newId now).2
  | .deleteOp id => .ok (DeleteItem st id).2
  | .getOp _ => .ok st
  | .getForPeerOp id peer =>
    match GetItemForPeer cr st id peer with
    | .panics m => .panics m
    | .ok (_, st') => .ok st'
  | .setValueOp id v now =>
    match SetItemValue cr st id v now with
    | .panics m => .panics m
    | .ok (_, st') => .ok st'
  | .setRecoveryOp r now =>
    match SetRecoveryRecipient cr st r now with
    | .panics m => .panics m
    | .ok (_, st') => .ok st'

/-- `op` neither deletes item `id` nor re-uses its id for a fresh item
(`uuid.New()` is assumed collision-free). -/
def opSpares (id : String) : VaultOp → Prop
  | .deleteOp k => k ≠ id
  | .createOp _ newId _ => newId ≠ id
  | _ => True

/-- The in-memory map still carries peer `p` on item `id` (when present). -/
def peerIntactMem (id p : String) (st : VaultState) : Prop :=
  ∀ it', alGet (st.items.getD []) id = some it' → it'.peer = some p

/-- The on-disk metadata of item `id` still carries peer `p`. -/
def peerIntactDisk (id p : String) (secret : List Nat) (st : VaultState) : Prop :=
  ∃ itX : Item, lookupFile st.store (metadataPath id) = some (encodeItemHmac itX secret) ∧
    itX.peer = some p ∧ itX.id = id

/-- Shape of the states reachable from `GetItemForPeer`: either unchanged
or the pin of `peer` onto the item stored under `id2`. -/
theorem getItemForPeer_state (cr : Crypto) (st : VaultState) (id2 peer2 : String)
    (secret : List Nat) (hsec : st.metadataHmacSecret = some secret) :
    ∀ r st', GetItemForPeer cr st id2 peer2 = .ok (r, st') →
      st' = st ∨ ∃ it2, alGet (st.items.getD []) id2 = some it2 ∧ it2.peer = none ∧
        st' = { st with
          store := writeItemMetadataUnsafe st.store { it2 with peer := some peer2 } secret,
          items := some (alSet (st.items.getD []) it2.id { it2 with peer := some peer2 }) } := by
  intro r st' hp
  unfold GetItemForPeer at hp
  split at hp
  · simp only [GoResult.ok.injEq, Prod.mk.injEq] at hp
    exact .inl hp.2.symm
  · revert hp
    cases halg : alGet (st.items.getD []) id2 with
    | none =>
      intro hp
      simp only [GoResult.ok.injEq, Prod.mk.injEq] at hp
      exact .inl hp.2.symm
    | some it2 =>
      unfold verifyPeerUnsafe
      rw [hsec]
      cases hpe : it2.peer with
      | none =>
        simp only [hpe]
        intro hp
        refine Or.inr ⟨it2, rfl, hpe, ?_⟩
        split at hp
        · simp only [GoResult.ok.injEq, Prod.mk.injEq] at hp
          exact hp.2.symm
        · split at hp
          · simp at hp
          · simp only [GoResult.ok.injEq, Prod.mk.injEq] at hp
            exact hp.2.symm
          · simp only [GoResult.ok.injEq, Prod.mk.injEq] at hp
            exact hp.2.symm
      | some q =>
        simp only [hpe]
        by_cases hq : q ≠ peer2
        · rw [if_pos hq]
          intro hp
          simp only [GoResult.ok.injEq, Prod.mk.injEq] at hp
          exact .inl hp.2.symm
        · rw [if_neg hq]
          dsimp only
          intro hp
          split at hp
          · simp only [GoResult.ok.injEq, Prod.mk.injEq] at hp
            exact .inl hp.2.symm
          · split at hp
            · simp at hp
            · simp only [GoResult.ok.injEq, Prod.mk.injEq] at hp
              exact .inl hp.2.symm
            · simp only [GoResult.ok.injEq, Prod.mk.injEq] at hp
              exact .inl hp.2.symm

/-- Shape of the states reachable from `SetItemValue`: either unchanged or
the result of `writeItemValueUnsafe` on the item stored under `id2`. -/
theorem setItemValue_state (cr : Crypto) (st : VaultState) (id2 : String) (v : List Nat)
    (now : Nat) :
    ∀ r st', SetItemValue cr st id2 v now = .ok (r, st') →
      st' = st ∨ ∃ it2, alGet (st.items.getD []) id2 = some it2 ∧
        writeItemValueUnsafe cr st it2 v now = .ok (.ok st') := by
  intro r st' hp
  unfold SetItemValue at hp
  split at hp
  · simp only [GoResult.ok.injEq, Prod.mk.injEq] at hp
    exact .inl hp.2.symm
  · split at hp
    · simp only [GoResult.ok.injEq, Prod.mk.injEq] at hp
      exact .inl hp.2.symm
    · revert hp
      cases halg : alGet (st.items.getD []) id2 with
      | none =>
        intro hp
        simp only [GoResult.ok.injEq, Prod.mk.injEq] at hp
        exact .inl hp.2.symm
      | some it2 =>
        cases hw : writeItemValueUnsafe cr st it2 v now with
        | panics m =>
          intro hp
          dsimp only at hp
          rw [hw] at hp
          simp at hp
        | ok res =>
          cases res with
          | error e =>
            intro hp
            dsimp only at hp
            rw [hw] at hp
            simp only [GoResult.ok.injEq, Prod.mk.injEq] at hp
            exact .inl hp.2.symm
          | ok stW =>
            intro hp
            dsimp only at hp
            rw [hw] at hp
            simp only [GoResult.ok.injEq, Prod.mk.injEq] at hp
            exact .inr ⟨it2, rfl, by rw [hw, hp.2]⟩

/-- Preservation of a pinned peer through `writeItemValueUnsafe`: the write
keeps the stored item's peer and only touches that item's paths. -/
theorem writeItemValue_preserve (cr : Crypto) (id p : String) (secret : List Nat)
    (hlen5 : 5 ≤ id.data.length) (hbak : id.data.take 5 ≠ ".bak/".data)
    (stC : VaultState) (itD : Item) (value : List Nat) (now : Nat) (stW : VaultState)
    (hsecC : stC.metadataHmacSecret = some secret)
    (hitD : itD.id = id → itD.peer = some p)
    (hmemC : peerIntactMem id p stC) (hdiskC : peerIntactDisk id p secret stC)
    (hw : writeItemValueUnsafe cr stC itD value now = .ok (.ok stW)) :
    peerIntactMem id p stW ∧ peerIntactDisk id p secret stW ∧
      stW.metadataHmacSecret = some secret := by
  unfold writeItemValueUnsafe at hw
  split at hw
  · simp at hw
  · rename_i ageB heqEnc
    revert hw
    dsimp only
    -- the optional backup copy
    have handle : ∀ store1 : Store,
        lookupFile store1 (metadataPath id) = lookupFile stC.store (metadataPath id) →
        ((GoResult.ok (Except.ok
          { secure := stC.secure, identityKey := stC.identityKey,
            metadataHmacSecret := some secret, primaryRecipient := stC.primaryRecipient,
            items := some (alSet (stC.items.getD []) itD.id
              { itD with checksum := sum value, modifiedAt := now }),
            store := writeItemMetadataUnsafe
              (writeFileS store1 (valuePath itD.id) ageB)
              { itD with checksum := sum value, modifiedAt := now } secret }) :
            GoResult (Except String VaultState)) =
          GoResult.ok (Except.ok stW)) →
        peerIntactMem id p stW ∧ peerIntactDisk id p secret stW ∧
          stW.metadataHmacSecret = some secret := by
      intro store1 hst1 heq
      simp only [GoResult.ok.injEq, Except.ok.injEq] at heq
      subst heq
      by_cases hid : itD.id = id
      · refine ⟨?_, ?_, rfl⟩
        · intro it' hget
          rw [Option.getD_some] at hget
          rw [hid, alGet_alSet_same] at hget
          cases hget
          simpa using hitD hid
        · refine ⟨{ itD with checksum := sum value, modifiedAt := now }, ?_, by simpa using hitD hid, by simpa using hid⟩
          simp only [writeItemMetadataUnsafe]
          rw [show metadataPath ({ itD with checksum := sum value, modifiedAt := now } : Item).id
            = metadataPath id by rw [show ({ itD with checksum := sum value, modifiedAt := now } : Item).id = itD.id from rfl, hid]]
          exact lookupFile_writeFileS_same _ _ _
      · refine ⟨?_, ?_, rfl⟩
        · intro it' hget
          rw [Option.getD_some] at hget
          rw [alGet_alSet_other _ _ _ _ (show id ≠ itD.id from fun h => hid h.symm)] at hget
          exact hmemC it' hget
        · obtain ⟨itX, hlook, hpx, hix⟩ := hdiskC
          refine ⟨itX, ?_, hpx, hix⟩
          simp only [writeItemMetadataUnsafe]
          rw [lookupFile_writeFileS_other _ _ _ _
              (show metadataPath id ≠ metadataPath itD.id from
                fun h => hid (metadataPath_inj h).symm),
            lookupFile_writeFileS_other _ _ _ _
              (show metadataPath id ≠ valuePath itD.id from
                fun h => valuePath_ne_metadataPath itD.id id h.symm),
            hst1]
          exact hlook
    by_cases hck : itD.checksum ≠ ""
    · rw [if_pos hck]
      cases hcf : copyFile stC.store (valuePath itD.id) (backupPath itD.id now) with
      | error e =>
        intro hw
        simp at hw
      | ok store1 =>
        dsimp only
        rw [hsecC]
        intro hw
        refine handle store1 ?_ hw
        unfold copyFile at hcf
        split at hcf
        · simp at hcf
        · simp only [Except.ok.injEq] at hcf
          subst hcf
          exact lookupFile_writeFileS_other _ _ _ _
            (show metadataPath id ≠ backupPath itD.id now from
              fun h => backupPath_ne_metadataPath itD.id now id hlen5 hbak h.symm)
    · rw [if_neg hck]
      dsimp only
      rw [hsecC]
      intro hw
      exact handle stC.store rfl hw

/-- Preservation of a pinned peer through the re-encryption loop of
`SetRecoveryRecipient`. -/
theorem reencrypt_preserve (cr : Crypto) (id p : String) (secret : List Nat)
    (hlen5 : 5 ≤ id.data.length) (hbak : id.data.take 5 ≠ ".bak/".data) (now : Nat) :
    ∀ (ds : List (String × Item)) (stC : VaultState),
      stC.metadataHmacSecret = some secret →
      (∀ kv ∈ ds, kv.2.id = id → kv.2.peer = some p) →
      peerIntactMem id p stC → peerIntactDisk id p secret stC →
      ∀ st', reencryptItems cr stC ds now = .ok st' →
        peerIntactMem id p st' ∧ peerIntactDisk id p secret st'
  | [], stC => by
    intro _ _ hmemC hdiskC st' h
    simp only [reencryptItems, GoResult.ok.injEq] at h
    subst h
    exact ⟨hmemC, hdiskC⟩
  | (k, itD) :: rest, stC => by
    intro hsecC hds hmemC hdiskC st' h
    simp only [reencryptItems] at h
    cases hr : readItemValueUnsafe cr stC itD with
    | panics m =>
      rw [hr] at h
      simp at h
    | ok rv =>
      cases rv with
      | error e =>
        rw [hr] at h
        dsimp only at h
        exact reencrypt_preserve cr id p secret hlen5 hbak now rest stC hsecC
          (fun kv hkv => hds kv (List.mem_cons_of_mem _ hkv)) hmemC hdiskC st' h
      | ok value =>
        rw [hr] at h
        dsimp only at h
        cases hwv : writeItemValueUnsafe cr stC itD value now with
        | panics m =>
          rw [hwv] at h
          simp at h
        | ok wres =>
          cases wres with
          | error e =>
            rw [hwv] at h
            dsimp only at h
            exact reencrypt_preserve cr id p secret hlen5 hbak now rest stC hsecC
              (fun kv hkv => hds kv (List.mem_cons_of_mem _ hkv)) hmemC hdiskC st' h
          | ok stW =>
            rw [hwv] at h
            dsimp only at h
            have hpres := writeItemValue_preserve cr id p secret hlen5 hbak stC itD value now
              stW hsecC (fun hid => hds (k, itD) (List.mem_cons_self _ _) hid) hmemC hdiskC hwv
            exact reencrypt_preserve cr id p secret hlen5 hbak now rest stW hpres.2.2
              (fun kv hkv => hds kv (List.mem_cons_of_mem _ hkv)) hpres.1 hpres.2.1 st' h

/-- Shape of the states reachable from `SetRecoveryRecipient`. -/
theorem setRecovery_state (cr : Crypto) (st : VaultState) (r0 : Recipient) (now : Nat)
    (secret : List Nat) (hsec : st.metadataHmacSecret = some secret) :
    ∀ res st', SetRecoveryRecipient cr st r0 now = .ok (res, st') →
      st' = st ∨ ∃ ds,
        readAllMetadataUnsafe (writeRecoveryRecipient st.store r0 secret) secret = .ok ds ∧
        reencryptItems cr
          { secure := st.secure, identityKey := st.identityKey,
            metadataHmacSecret := some secret, primaryRecipient := st.primaryRecipient,
            items := st.items, store := writeRecoveryRecipient st.store r0 secret }
          ds now = .ok st' := by
  intro res st' hp
  unfold SetRecoveryRecipient at hp
  split at hp
  · simp only [GoResult.ok.injEq, Prod.mk.injEq] at hp
    exact .inl hp.2.symm
  · rw [hsec] at hp
    dsimp only at hp
    cases hl : loadRecoveryRecipient cr st.store secret with
    | error e =>
      rw [hl] at hp
      simp only [GoResult.ok.injEq, Prod.mk.injEq] at hp
      exact .inl hp.2.symm
    | ok o =>
      rw [hl] at hp
      dsimp only at hp
      cases hra : readAllMetadataUnsafe (writeRecoveryRecipient st.store r0 secret) secret with
      | panics m =>
        rw [hra] at hp
        simp at hp
      | ok ds =>
        rw [hra] at hp
        dsimp only at hp
        cases hre : reencryptItems cr
            { secure := st.secure, identityKey := st.identityKey,
              metadataHmacSecret := some secret, primaryRecipient := st.primaryRecipient,
              items := st.items, store := writeRecoveryRecipient st.store r0 secret } ds now with
        | panics m =>
          rw [hre] at hp
          simp at hp
        | ok stF =>
          rw [hre] at hp
          simp only [GoResult.ok.injEq, Prod.mk.injEq] at hp
          exact .inr ⟨ds, rfl, by rw [hre, hp.2]⟩

/-- Pinned-peer preservation across the vault's operation alphabet: no
operation that spares item `id` (anything but deleting it or re-using its
id) rewrites or clears its pinned peer, in memory or on disk. -/
theorem c6_preserve (cr : Crypto) (st : VaultState) (id p : String) (key secret : List Nat)
    (hkey : st.identityKey = some key)
    (hsec : st.metadataHmacSecret = some secret)
    (hkeys : ∀ k it0, alGet (st.items.getD []) k = some it0 → it0.id = k)
    (hmem : peerIntactMem id p st)
    (hdisk : peerIntactDisk id p secret st)
    (hlen5 : 5 ≤ id.data.length)
    (hbak : id.data.take 5 ≠ ".bak/".data)
    (hrec1 : ".recovery".data ≠ metadataPath id)
    (hrec2 : ".recovery.sum".data ≠ metadataPath id) :
    ∀ op, opSpares id op → ∀ st', applyOp cr st op = .ok st' →
      peerIntactMem id p st' ∧ peerIntactDisk id p secret st' := by
  have hIsL : IsLocked st = false := by simp [IsLocked, hkey]
  intro op hsp st' hap
  cases op with
  | unlockOp pass =>
    simp only [applyOp, Unlock, hIsL, Bool.false_eq_true, not_false_eq_true, if_true,
      GoResult.ok.injEq] at hap
    subst hap
    exact ⟨hmem, hdisk⟩
  | lockOp =>
    simp only [applyOp, Lock, hIsL, Bool.false_eq_true, if_false, GoResult.ok.injEq] at hap
    subst hap
    refine ⟨?_, hdisk⟩
    intro it' hget
    simp [alGet] at hget
  | verifyOp pass =>
    simp only [applyOp, GoResult.ok.injEq] at hap
    subst hap
    exact ⟨hmem, hdisk⟩
  | itemsOp =>
    simp only [applyOp, GoResult.ok.injEq] at hap
    subst hap
    exact ⟨hmem, hdisk⟩
  | getOp i =>
    simp only [applyOp, GoResult.ok.injEq] at hap
    subst hap
    exact ⟨hmem, hdisk⟩
  | createOp d newId now =>
    have hne : newId ≠ id := hsp
    simp only [applyOp, CreateItem, hIsL, Bool.false_eq_true, if_false, hsec,
      GoResult.ok.injEq] at hap
    subst hap
    constructor
    · intro it' hget
      rw [Option.getD_some] at hget
      rw [alGet_alSet_other _ _ _ _ (fun h => hne h.symm)] at hget
      exact hmem it' hget
    · obtain ⟨itX, hlook, hpx, hix⟩ := hdisk
      refine ⟨itX, ?_, hpx, hix⟩
      simp only [writeItemMetadataUnsafe]
      rw [lookupFile_writeFileS_other _ _ _ _
        (show metadataPath id ≠ metadataPath newId from
          fun h => hne (metadataPath_inj h).symm)]
      exact hlook
  | deleteOp k =>
    have hne : k ≠ id := hsp
    simp only [applyOp, DeleteItem, hIsL, Bool.false_eq_true, if_false] at hap
    unfold deleteItemUnsafe at hap
    cases halg : alGet (st.items.getD []) k with
    | none =>
      rw [halg] at hap
      simp only [GoResult.ok.injEq] at hap
      subst hap
      exact ⟨hmem, hdisk⟩
    | some itK =>
      rw [halg] at hap
      simp only [GoResult.ok.injEq] at hap
      subst hap
      have hidK : itK.id = k := hkeys k itK halg
      constructor
      · intro it' hget
        rw [Option.getD_some] at hget
        rw [alGet_alDel_other _ _ _ (fun h => hne h.symm)] at hget
        exact hmem it' hget
      · obtain ⟨itX, hlook, hpx, hix⟩ := hdisk
        refine ⟨itX, ?_, hpx, hix⟩
        rw [lookupFile_deleteFileS_other _ _ _
            (show metadataPath id ≠ valuePath itK.id from
              fun h => valuePath_ne_metadataPath itK.id id h.symm),
          lookupFile_deleteFileS_other _ _ _
            (show metadataPath id ≠ metadataPath itK.id from
              fun h => hne (hidK ▸ metadataPath_inj h).symm)]
        exact hlook
  | getForPeerOp id2 peer2 =>
    simp only [applyOp] at hap
    cases hg : GetItemForPeer cr st id2 peer2 with
    | panics m =>
      rw [hg] at hap
      simp at hap
    | ok pr =>
      obtain ⟨r0, stg⟩ := pr
      rw [hg] at hap
      simp only [GoResult.ok.injEq] at hap
      subst hap
      rcases getItemForPeer_state cr st id2 peer2 secret hsec r0 stg hg with
        heq | ⟨it2, halg2, hpe2, heq⟩
      · subst heq
        exact ⟨hmem, hdisk⟩
      · subst heq
        have hid2 : it2.id = id2 := hkeys id2 it2 halg2
        have hne : it2.id ≠ id := by
          intro he
          have hid2id : id2 = id := by rw [← hid2]; exact he
          have hpeq := hmem it2 (hid2id ▸ halg2)
          rw [hpe2] at hpeq
          cases hpeq
        constructor
        · intro it' hget
          rw [Option.getD_some] at hget
          rw [alGet_alSet_other _ _ _ _ (fun h => hne h.symm)] at hget
          exact hmem it' hget
        · obtain ⟨itX, hlook, hpx, hix⟩ := hdisk
          refine ⟨itX, ?_, hpx, hix⟩
          simp only [writeItemMetadataUnsafe]
          rw [lookupFile_writeFileS_other _ _ _ _
            (show metadataPath id ≠
                metadataPath ({ it2 with peer := some peer2 } : Item).id from
              fun h => hne (metadataPath_inj h).symm)]
          exact hlook
  | setValueOp id2 v now =>
    simp only [applyOp] at hap
    cases hs : SetItemValue cr st id2 v now with
    | panics m =>
      rw [hs] at hap
      simp at hap
    | ok pr =>
      obtain ⟨r0, sts⟩ := pr
      rw [hs] at hap
      simp only [GoResult.ok.injEq] at hap
      subst hap
      rcases setItemValue_state cr st id2 v now r0 sts hs with heq | ⟨it2, halg2, hwv⟩
      · subst heq
        exact ⟨hmem, hdisk⟩
      · have hid2 : it2.id = id2 := hkeys id2 it2 halg2
        have hcond : it2.id = id → it2.peer = some p := by
          intro he
          have hid2id : id2 = id := by rw [← hid2]; exact he
          exact hmem it2 (hid2id ▸ halg2)
        have hpres := writeItemValue_preserve cr id p secret hlen5 hbak st it2 v now sts
          hsec hcond hmem hdisk hwv
        exact ⟨hpres.1, hpres.2.1⟩
  | setRecoveryOp r0 now =>
    simp only [applyOp] at hap
    cases hs : SetRecoveryRecipient cr st r0 now with
    | panics m =>
      rw [hs] at hap
      simp at hap
    | ok pr =>
      obtain ⟨res, stg⟩ := pr
      rw [hs] at hap
      simp only [GoResult.ok.injEq] at hap
      subst hap
      rcases setRecovery_state cr st r0 now secret hsec res stg hs with heq | ⟨ds, hra, hre⟩
      · subst heq
        exact ⟨hmem, hdisk⟩
      · have hstable : lookupFile (writeRecoveryRecipient st.store r0 secret) (metadataPath id) =
            lookupFile st.store (metadataPath id) := by
          unfold writeRecoveryRecipient
          rw [lookupFile_writeFileS_other _ _ _ _ (fun h => hrec2 h.symm),
            lookupFile_writeFileS_other _ _ _ _ (fun h => hrec1 h.symm)]
        have hdisk1 : peerIntactDisk id p secret
            { secure := st.secure, identityKey := st.identityKey,
              metadataHmacSecret := some secret, primaryRecipient := st.primaryRecipient,
              items := st.items, store := writeRecoveryRecipient st.store r0 secret } := by
          obtain ⟨itX, hlook, hpx, hix⟩ := hdisk
          exact ⟨itX, by
            show lookupFile (writeRecoveryRecipient st.store r0 secret) (metadataPath id) = _
            rw [hstable]; exact hlook, hpx, hix⟩
        have hds : ∀ kv ∈ ds, kv.2.id = id → kv.2.peer = some p := by
          intro kv hkv hidkv
          have hsound := readAllFrom_sound (writeRecoveryRecipient st.store r0 secret) secret
            (listFilesS (writeRecoveryRecipient st.store r0 secret)) [] ds hra
            (by intro kv2 hkv2; cases hkv2) kv hkv
          rw [hidkv] at hsound
          obtain ⟨itX, hlook1, hpx, hix⟩ := hdisk1
          have hread := readItemMetadata_encode
            (writeRecoveryRecipient st.store r0 secret) (metadataPath id) itX secret
            hlook1 (by rw [hix])
          rw [hread] at hsound
          simp only [GoResult.ok.injEq, Except.ok.injEq] at hsound
          rw [← hsound]
          exact hpx
        exact reencrypt_preserve cr id p secret hlen5 hbak now ds
          { secure := st.secure, identityKey := st.identityKey,
            metadataHmacSecret := some secret, primaryRecipient := st.primaryRecipient,
            items := st.items, store := writeRecoveryRecipient st.store r0 secret }
          rfl hds hmem hdisk1 stg hre

/-- First authenticated read pins the peer and persists it. -/
theorem c6_pin (cr : Crypto) (st : VaultState) (A : String) (it : Item)
    (key secret : List Nat) (m0 : ItemMap)
    (hkey : st.identityKey = some key)
    (hsec : st.metadataHmacSecret = some secret)
    (hitems : st.items = some m0)
    (halg : alGet m0 it.id = some it)
    (hpeer : it.peer = none) :
    ∀ r st', GetItemForPeer cr st it.id A = .ok (r, st') →
      alGet (st'.items.getD []) it.id = some { it with peer := some A } ∧
      lookupFile st'.store (metadataPath it.id) =
        some (encodeItemHmac { it with peer := some A } secret) := by
  intro r st' hp
  have hIsL : IsLocked st = false := by simp [IsLocked, hkey]
  simp only [GetItemForPeer, hIsL, Bool.false_eq_true, if_false, hitems,
    Option.getD_some, halg, verifyPeerUnsafe, hsec, hpeer] at hp
  have hconc : st' =
      { secure := st.secure, identityKey := st.identityKey,
        metadataHmacSecret := some secret, primaryRecipient := st.primaryRecipient,
        items := some (alSet m0 it.id { it with peer := some A }),
        store := writeItemMetadataUnsafe st.store { it with peer := some A } secret } := by
    split at hp
    · simp only [GoResult.ok.injEq, Prod.mk.injEq] at hp
      exact hp.2.symm
    · split at hp
      · simp at hp
      · simp only [GoResult.ok.injEq, Prod.mk.injEq] at hp
        exact hp.2.symm
      · simp only [GoResult.ok.injEq, Prod.mk.injEq] at hp
        exact hp.2.symm
  subst hconc
  constructor
  · rw [Option.getD_some]
    exact alGet_alSet_same m0 it.id _
  · simp only [writeItemMetadataUnsafe]
    exact lookupFile_writeFileS_same _ _ _

/-- A read from a different peer fails with the mismatch error and leaves
the whole state unchanged. -/
theorem c6_mismatch (cr : Crypto) (st : VaultState) (A B : String) (it : Item)
    (key secret : List Nat) (m0 : ItemMap)
    (hkey : st.identityKey = some key)
    (hsec : st.metadataHmacSecret = some secret)
    (hitems : st.items = some m0)
    (halg : alGet m0 it.id = some it)
    (hpeer : it.peer = some A)
    (hne : B ≠ A) :
    GetItemForPeer cr st it.id B = .ok (.error "client credentials mismatch", st) := by
  have hIsL : IsLocked st = false := by simp [IsLocked, hkey]
  simp only [GetItemForPeer, hIsL, Bool.false_eq_true, if_false, hitems,
    Option.getD_some, halg, verifyPeerUnsafe, hsec, hpeer]
  rw [if_pos (show A ≠ B from fun h => hne h.symm)]

/-- C6: peer pinning. (1) For an item with no pinned peer, the first
get-value-for-peer(I, A) pins A in the in-memory map and persists it in
I's metadata file, on every normal return. (2) Every subsequent
get-value-for-peer(I, B) with B ≠ A fails with the peer-mismatch error
("client credentials mismatch") and leaves the entire vault state — in
particular the pinned peer — unchanged. (3) No vault operation that
spares the item (every operation except deleting it, with fresh ids for
created items) ever rewrites or clears a non-empty pinned peer, neither
in the in-memory map nor in the on-disk metadata. -/
theorem c6_peer_pinning (cr : Crypto) :
    (∀ (st : VaultState) (A : String) (it : Item) (key secret : List Nat) (m0 : ItemMap),
      st.identityKey = some key → st.metadataHmacSecret = some secret →
      st.items = some m0 → alGet m0 it.id = some it → it.peer = none →
      ∀ r st', GetItemForPeer cr st it.id A = .ok (r, st') →
        alGet (st'.items.getD []) it.id = some { it with peer := some A } ∧
        lookupFile st'.store (metadataPath it.id) =
          some (encodeItemHmac { it with peer := some A } secret)) ∧
    (∀ (st : VaultState) (A B : String) (it : Item) (key secret : List Nat) (m0 : ItemMap),
      st.identityKey = some key → st.metadataHmacSecret = some secret →
      st.items = some m0 → alGet m0 it.id = some it → it.peer = some A → B ≠ A →
      GetItemForPeer cr st it.id B = .ok (.error "client credentials mismatch", st)) ∧
    (∀ (st : VaultState) (id p : String) (key secret : List Nat),
      st.identityKey = some key → st.metadataHmacSecret = some secret →
      (∀ k it0, alGet (st.items.getD []) k = some it0 → it0.id = k) →
      peerIntactMem id p st → peerIntactDisk id p secret st →
      5 ≤ id.data.length → id.data.take 5 ≠ ".bak/".data →
      ".recovery".data ≠ metadataPath id → ".recovery.sum".data ≠ metadataPath id →
      ∀ op, opSpares id op → ∀ st', applyOp cr st op = .ok st' →
        peerIntactMem id p st' ∧ peerIntactDisk id p secret st') :=
  ⟨fun st A it key secret m0 h1 h2 h3 h4 h5 =>
    c6_pin cr st A it key secret m0 h1 h2 h3 h4 h5,
   fun st A B it key secret m0 h1 h2 h3 h4 h5 h6 =>
    c6_mismatch cr st A B it key secret m0 h1 h2 h3 h4 h5 h6,
   fun st id p key secret h1 h2 h3 h4 h5 h6 h7 h8 h9 =>
    c6_preserve cr st id p key secret h1 h2 h3 h4 h5 h6 h7 h8 h9⟩

def c6WitItem : Item := ⟨"aaaaa", "d", none, "", 0⟩

def c6WitItemPinned : Item := ⟨"aaaaa", "d", some "px", "", 0⟩

def c6WitState : VaultState :=
  ⟨false, some [1], some [5], some ⟨[7]⟩, some [("aaaaa", c6WitItem)], []⟩

def c6WitStatePinned : VaultState :=
  ⟨false, some [1], some [5], some ⟨[7]⟩,
    some (alSet [("aaaaa", c6WitItem)] "aaaaa" c6WitItemPinned),
    writeItemMetadataUnsafe [] c6WitItemPinned [5]⟩

def c6WitItemVal : Item := ⟨"aaaaa", "d", some "px", sum [9], 7⟩

def c6WitStateAfter : VaultState :=
  ⟨false, some [1], some [5], some ⟨[7]⟩,
    some (alSet (alSet [("aaaaa", c6WitItem)] "aaaaa" c6WitItemPinned) "aaaaa" c6WitItemVal),
    writeItemMetadataUnsafe
      (writeFileS (writeItemMetadataUnsafe [] c6WitItemPinned [5]) (valuePath "aaaaa") [9])
      c6WitItemVal [5]⟩

theorem c6_peer_pinning_witness :
    (alGet (c6WitStatePinned.items.getD []) c6WitItem.id = some c6WitItemPinned ∧
      lookupFile c6WitStatePinned.store (metadataPath c6WitItem.id) =
        some (encodeItemHmac c6WitItemPinned [5])) ∧
    GetItemForPeer testCrypto c6WitStatePinned c6WitItemPinned.id "qx" =
      .ok (.error "client credentials mismatch", c6WitStatePinned) ∧
    (peerIntactMem "aaaaa" "px" c6WitStateAfter ∧
      peerIntactDisk "aaaaa" "px" [5] c6WitStateAfter) := by
  have hthm := c6_peer_pinning testCrypto
  refine ⟨?_, ?_, ?_⟩
  · exact hthm.1 c6WitState "px" c6WitItem [1] [5] [("aaaaa", c6WitItem)]
      rfl rfl rfl (by decide) rfl (.ok none) c6WitStatePinned (by decide)
  · exact hthm.2.1 c6WitStatePinned "px" "qx" c6WitItemPinned [1] [5]
      (alSet [("aaaaa", c6WitItem)] "aaaaa" c6WitItemPinned)
      rfl rfl rfl (by decide) rfl (by decide)
  · refine hthm.2.2 c6WitStatePinned "aaaaa" "px" [1] [5] rfl rfl ?_ ?_ ?_
      (by decide) (by decide) (by decide) (by decide)
      (.setValueOp "aaaaa" [9] 7) trivial c6WitStateAfter (by decide)
    · intro k it0 h
      have h' : alGet [("aaaaa", c6WitItemPinned)] k = some it0 := h
      simp only [alGet] at h'
      split at h'
      · rename_i heq
        cases h'
        exact heq
      · cases h'
    · intro it' h
      have h' : alGet [("aaaaa", c6WitItemPinned)] "aaaaa" = some it' := h
      simp only [alGet, if_pos rfl] at h'
      cases h'
      rfl
    · exact ⟨c6WitItemPinned, by decide, rfl, rfl⟩

end BorgCollective
